import Mathlib

/-!
# MYGeranHub grant pipeline — verification development

A shallow embedding, in Lean 4, of the grant-pipeline logic of the
MYGeranHub repository (the discovery/upsert agent `backend/agents/agent1.py`,
the verification agent `backend/agents/agent2.py`, and the knowledge-sync
service `backend/server/services/grant_sync.py`), together with theorems
settling the specification claims about that logic.

General modelling conventions, used throughout:

* Python values flowing through the pipeline are modelled by the `Json`
  inductive below; Python `None` is modelled by `Json.null` (a missing
  dictionary key and an explicit `None` value are both read back as `None`
  by the Python code in this repository, so both are `Json.null` here).
* Python exceptions are modelled with `Except PyErr`; code that catches
  `Exception` catches every `PyErr`.
* Machine integers do not overflow in any code path the claims touch, so
  numbers are `Int`/`Nat`.
* External services (the OpenAI/Gemini gateways, the JamAI row store) are
  modelled by explicit environment records of deterministic functions:
  the response of the n-th gateway call of a run is `responses n`, and a
  store write to row `r`, column `c` succeeds iff `updateOk r c` holds.
  Traces of gateway calls and attempted writes are threaded through the
  state so that theorems can speak about "number of gateway requests" and
  "updates attempted".
-/

/-- Python dicts with string keys, modelled as insertion-ordered
association lists holding each key at most once; `dictInsert` is
`d[k] = v` (replace in place when the key exists, append otherwise) and
`dictLookup` is `d.get(k)`. -/
def dictLookup {α : Type} (kvs : List (String × α)) (k : String) : Option α :=
  (kvs.find? (fun p => p.1 == k)).map (·.2)

/-- Key membership, `k in d`. -/
def dictHasKey {α : Type} (kvs : List (String × α)) (k : String) : Bool :=
  kvs.any (fun p => p.1 == k)

/-- Dict update `d[k] = v`. -/
def dictInsert {α : Type} (kvs : List (String × α)) (k : String) (v : α) :
    List (String × α) :=
  if dictHasKey kvs k then
    kvs.map (fun p => if p.1 == k then (k, v) else p)
  else
    kvs ++ [(k, v)]

/-- JSON values, as produced by Python's `json.loads` and consumed by the
pipeline.  Objects are association lists in insertion order (Python dicts
preserve insertion order).  Number literals are modelled as integers:
no claim depends on fractional or exponent forms, which the pipeline never
produces itself. -/
inductive Json where
  | null : Json
  | bool : Bool → Json
  | num : Int → Json
  | str : String → Json
  | arr : List Json → Json
  | obj : List (String × Json) → Json

namespace Json

mutual

/-- Structural equality of JSON values (Python `==` on parsed JSON). -/
def beq : Json → Json → Bool
  | .null, .null => true
  | .bool a, .bool b => a == b
  | .num a, .num b => a == b
  | .str a, .str b => a == b
  | .arr xs, .arr ys => beqList xs ys
  | .obj xs, .obj ys => beqObj xs ys
  | _, _ => false

/-- Pointwise equality of JSON lists. -/
def beqList : List Json → List Json → Bool
  | [], [] => true
  | x :: xs, y :: ys => beq x y && beqList xs ys
  | _, _ => false

/-- Pointwise equality of JSON object entries. -/
def beqObj : List (String × Json) → List (String × Json) → Bool
  | [], [] => true
  | (k, v) :: xs, (k', v') :: ys => k == k' && beq v v' && beqObj xs ys
  | _, _ => false

end

instance : BEq Json := ⟨Json.beq⟩

/-- Python truthiness (`bool(x)`): `None`, `False`, `0`, `""`, `[]`, `{}`
are falsy, everything else truthy. -/
def pyTruthy : Json → Bool
  | .null => false
  | .bool b => b
  | .num n => n != 0
  | .str s => s != ""
  | .arr xs => !xs.isEmpty
  | .obj kvs => !kvs.isEmpty

/-- First value bound to key `k` in an object's association list.
Python dictionaries hold each key once; `loads` below keeps the last
duplicate, so lookups over parsed objects agree with Python. -/
def lookupKey (kvs : List (String × Json)) (k : String) : Option Json :=
  dictLookup kvs k

/-- Whether key `k` is present in an object's association list. -/
def hasKey (kvs : List (String × Json)) (k : String) : Bool :=
  dictHasKey kvs k

/-- `d[k] = v` on a Python dict: replace the value in place when the key
exists, append otherwise. -/
def objInsert (kvs : List (String × Json)) (k : String) (v : Json) :
    List (String × Json) :=
  dictInsert kvs k v

end Json

/-- Characters Python treats as whitespace for `str.strip()` (the ASCII
ones; the pipeline never handles non-ASCII whitespace). -/
def isPySpace (c : Char) : Bool :=
  c == ' ' || c == '\t' || c == '\n' || c == '\r' ||
    c == Char.ofNat 11 || c == Char.ofNat 12

/-- `str.strip()` on a character list: drop leading and trailing
whitespace. -/
def pyStripChars (cs : List Char) : List Char :=
  ((cs.dropWhile isPySpace).reverse.dropWhile isPySpace).reverse

/-- Python `str.strip()`. -/
def pyStrip (s : String) : String := ⟨pyStripChars s.data⟩

/-- Python `str.lower()` (ASCII case folding; grant names and the
sentinel are ASCII). -/
def pyLower (s : String) : String := ⟨s.data.map Char.toLower⟩

/-- Substring test, Python's `needle in haystack` on strings. -/
def hasSubstr : List Char → List Char → Bool
  | [], needle => needle.isEmpty
  | c :: rest, needle => needle.isPrefixOf (c :: rest) || hasSubstr rest needle

namespace Json

/-! ## `json.loads` — a fuel-indexed recursive-descent parser

Models Python's `json.loads` on the fragment the pipeline exercises:
`null`/`true`/`false`, integer numerals, strings with the common escapes,
arrays and objects, with arbitrary whitespace and a full-input check
(trailing data is a decode error, as in Python).  Not modelled, because no
claim depends on them: fractional/exponent numerals, `NaN`/`Infinity`,
`\uXXXX` surrogate pairs. -/

/-- JSON structural whitespace. -/
def isJsonWs (c : Char) : Bool :=
  c == ' ' || c == '\t' || c == '\n' || c == '\r'

/-- Skip JSON whitespace. -/
def skipWs (cs : List Char) : List Char := cs.dropWhile isJsonWs

/-- Parse the body of a JSON string literal after the opening quote;
returns the decoded characters and the input after the closing quote. -/
def parseStringBody : List Char → Option (List Char × List Char)
  | [] => none
  | '"' :: rest => some ([], rest)
  | '\\' :: e :: rest => do
      let dec ←
        match e with
        | '"' => some '"'
        | '\\' => some '\\'
        | '/' => some '/'
        | 'n' => some '\n'
        | 't' => some '\t'
        | 'r' => some '\r'
        | 'b' => some (Char.ofNat 8)
        | 'f' => some (Char.ofNat 12)
        | _ => none
      let (tail, rem) ← parseStringBody rest
      some (dec :: tail, rem)
  | '\\' :: [] => none
  | c :: rest => do
      let (tail, rem) ← parseStringBody rest
      some (c :: tail, rem)

mutual

/-- Parse one JSON value (fuel-indexed; every recursive call spends one
unit of fuel, `loads` supplies enough for any input of its length). -/
def parseValue : Nat → List Char → Option (Json × List Char)
  | 0, _ => none
  | fuel + 1, cs =>
    match skipWs cs with
    | 'n' :: 'u' :: 'l' :: 'l' :: rest => some (.null, rest)
    | 't' :: 'r' :: 'u' :: 'e' :: rest => some (.bool true, rest)
    | 'f' :: 'a' :: 'l' :: 's' :: 'e' :: rest => some (.bool false, rest)
    | '"' :: rest => do
        let (body, rem) ← parseStringBody rest
        some (.str ⟨body⟩, rem)
    | '-' :: rest => do
        let (n, rem) ← parseNat fuel rest 0 false
        some (.num (-(n : Int)), rem)
    | '[' :: rest =>
        (match skipWs rest with
         | ']' :: rem => some (.arr [], rem)
         | other => do
            let (xs, rem) ← parseElems fuel other
            some (.arr xs, rem))
    | '{' :: rest =>
        (match skipWs rest with
         | '}' :: rem => some (.obj [], rem)
         | other => do
            let (kvs, rem) ← parseMembers fuel other []
            some (.obj kvs, rem))
    | c :: rest =>
        if c.isDigit then do
          let (n, rem) ← parseNat fuel (c :: rest) 0 false
          some (.num (n : Int), rem)
        else none
    | [] => none

/-- Parse a nonempty digit run, accumulating into `acc`. -/
def parseNat : Nat → List Char → Nat → Bool → Option (Nat × List Char)
  | 0, _, _, _ => none
  | _ + 1, [], acc, seen => if seen then some (acc, []) else none
  | fuel + 1, c :: rest, acc, seen =>
      if c.isDigit then
        parseNat fuel rest (acc * 10 + (c.toNat - '0'.toNat)) true
      else if seen then some (acc, c :: rest)
      else none

/-- Parse array elements after the opening bracket (first element
pending). -/
def parseElems : Nat → List Char → Option (List Json × List Char)
  | 0, _ => none
  | fuel + 1, cs => do
      let (v, rem) ← parseValue fuel cs
      match skipWs rem with
      | ',' :: rest => do
          let (vs, rem') ← parseElems fuel rest
          some (v :: vs, rem')
      | ']' :: rest => some ([v], rest)
      | _ => none

/-- Parse object members after the opening brace (first member pending);
duplicate keys keep the last value at the first key's position, as
Python's `json.loads` does. -/
def parseMembers : Nat → List Char → List (String × Json) →
    Option (List (String × Json) × List Char)
  | 0, _, _ => none
  | fuel + 1, cs, acc =>
      match skipWs cs with
      | '"' :: rest => do
          let (key, rem) ← parseStringBody rest
          match skipWs rem with
          | ':' :: rest' => do
              let (v, rem') ← parseValue fuel rest'
              let acc' := objInsert acc ⟨key⟩ v
              match skipWs rem' with
              | ',' :: rest'' => parseMembers fuel rest'' acc'
              | '}' :: rest'' => some (acc', rest'')
              | _ => none
          | _ => none
      | _ => none

end

/-- Python `json.loads`: parse a complete JSON document, rejecting
trailing non-whitespace data. -/
def loads (s : String) : Option Json :=
  match parseValue (4 * s.length + 8) s.data with
  | some (v, rem) => if (skipWs rem).isEmpty then some v else none
  | none => none

end Json

namespace Json

/-- Decimal escape-free rendering of one string character for
`json.dumps` (common escapes; `ensure_ascii=False` lets other characters
through verbatim, which is how both agents call `json.dumps`). -/
def dumpChar (c : Char) : String :=
  if c == '"' then "\\\""
  else if c == '\\' then "\\\\"
  else if c == '\n' then "\\n"
  else if c == '\t' then "\\t"
  else if c == '\r' then "\\r"
  else String.singleton c

/-- Serialize a string literal. -/
def dumpString (s : String) : String :=
  "\"" ++ String.join (s.data.map dumpChar) ++ "\""

mutual

/-- Python `json.dumps(v, separators=(",", ":"), ensure_ascii=False)`,
the exact call in `_normalize_json_string` of `agent2.py` (the compact
separators both agents use for stored payloads). -/
def dumps : Json → String
  | .null => "null"
  | .bool true => "true"
  | .bool false => "false"
  | .num n => toString n
  | .str s => dumpString s
  | .arr xs => "[" ++ dumpsList xs ++ "]"
  | .obj kvs => "\x7b" ++ dumpsObj kvs ++ "\x7d"

/-- Comma-joined serialization of array elements. -/
def dumpsList : List Json → String
  | [] => ""
  | [x] => dumps x
  | x :: y :: rest => dumps x ++ "," ++ dumpsList (y :: rest)

/-- Comma-joined serialization of object members. -/
def dumpsObj : List (String × Json) → String
  | [] => ""
  | [(k, v)] => dumpString k ++ ":" ++ dumps v
  | (k, v) :: m :: rest => dumpString k ++ ":" ++ dumps v ++ "," ++ dumpsObj (m :: rest)

end

end Json

/-- Python exceptions that the embedded code can raise.  Code that
catches `Exception` catches all of them. -/
inductive PyErr where
  /-- `re.error: unknown extension ?1` — raised by `re.search` when it
  compiles a pattern using the recursive-subpattern syntax `(?1)`, which
  CPython's `re` module does not support. -/
  | reUnknownExtension : PyErr
  /-- `json.JSONDecodeError` escaping `json.loads`. -/
  | jsonDecode : PyErr
  /-- `AttributeError`, e.g. `.get` called on a non-dict. -/
  | attrError : PyErr
  /-- `KeyError` from subscripting a dict with a missing key. -/
  | keyError : PyErr
  /-- `TypeError`, e.g. subscripting or iterating a non-container. -/
  | typeError : PyErr
  /-- A store (JamAI) write or read request that failed. -/
  | storeError : PyErr
  /-- `RuntimeError` raised explicitly by the code. -/
  | runtimeError : PyErr
deriving DecidableEq, Repr

namespace Json

/-- Python `container.get(key)` with `None` default, where the container
is known to be a dict; `.get` on a non-dict raises `AttributeError`. -/
def pyGet : Json → String → Except PyErr Json
  | .obj kvs, k => .ok ((lookupKey kvs k).getD .null)
  | _, _ => .error .attrError

/-- Python `container.get(key, default)` on a dict, `AttributeError`
otherwise. -/
def pyGetD (j : Json) (k : String) (default : Json) : Except PyErr Json :=
  match j with
  | .obj kvs => .ok ((lookupKey kvs k).getD default)
  | _ => .error .attrError

/-- Python `key in container` for a string key: dict key membership,
substring test on strings, element membership on lists; `TypeError` on
scalars. -/
def pyIn (k : String) : Json → Except PyErr Bool
  | .obj kvs => .ok (hasKey kvs k)
  | .str s => .ok (hasSubstr s.data k.data)
  | .arr xs => .ok (xs.any (fun x => beq x (.str k)))
  | _ => .error .typeError

/-- Python `container[key]` for a string key: dict subscripting
(`KeyError` when absent), `TypeError` on anything else. -/
def pyIndex (j : Json) (k : String) : Except PyErr Json :=
  match j with
  | .obj kvs =>
      match lookupKey kvs k with
      | some v => .ok v
      | none => .error .keyError
  | _ => .error .typeError

/-- Python `x or d`: `x` when truthy, else `d`. -/
def pyOr (x d : Json) : Json := if pyTruthy x then x else d

/-- Python `for x in c`: lists iterate their elements, strings their
characters, dicts their keys; scalars raise `TypeError`. -/
def pyIter : Json → Except PyErr (List Json)
  | .arr xs => .ok xs
  | .str s => .ok (s.data.map (fun c => .str (String.singleton c)))
  | .obj kvs => .ok (kvs.map (fun p => .str p.1))
  | _ => .error .typeError

/-- Python `str(x)` as used in f-string interpolation of JSON leaf
values (`None` → `"None"`, booleans capitalized, numbers in decimal;
containers are rendered JSON-like — the pipeline only ever interpolates
leaves). -/
def pyFormat : Json → String
  | .null => "None"
  | .bool true => "True"
  | .bool false => "False"
  | .num n => toString n
  | .str s => s
  | v => dumps v

/-- `isinstance(x, dict)`. -/
def isDict : Json → Bool
  | .obj _ => true
  | _ => false

/-- `isinstance(x, str)`. -/
def isStr : Json → Bool
  | .str _ => true
  | _ => false

end Json

/-! ## Language Model Gateway retry loop — `agent1.py`,
`WebScraperAgent._make_ai_request_with_retry` -/

/-- Outcome of one `self.model.generate_content(...)` call: a response,
or an exception rendered as its message string. -/
inductive ReqOutcome where
  | success (resp : String) : ReqOutcome
  | failure (msg : String) : ReqOutcome
deriving DecidableEq, Repr

/-- The rate-limit test of the except branch:
`"quota" in str(e).lower() or "429" in str(e)`. -/
def isQuotaMsg (msg : String) : Bool :=
  hasSubstr (pyLower msg).data "quota".data || hasSubstr msg.data "429".data

/-- The backoff delay of attempt `a`:
`wait_time = min(120, 15 * (2 ** attempt))`. -/
def backoffWait (attempt : Nat) : Nat := min 120 (15 * 2 ^ attempt)

/-- Result of the retry loop: the returned response (`None` on failure),
the sequence of `time.sleep` delays performed, the number of
`generate_content` calls issued, and the strings appended to
`self.errors`. -/
structure RetryResult where
  result : Option String
  waits : List Nat
  attemptsMade : Nat
  errors : List String
deriving DecidableEq, Repr

/-- The `for attempt in range(max_retries)` loop of
`_make_ai_request_with_retry`: `rem` is the number of iterations left and
`attempt` the current loop index; `env a` is the outcome of the call made
on attempt `a`. -/
def retryLoop (env : Nat → ReqOutcome) :
    Nat → Nat → List Nat → List String → RetryResult
  | 0, attempt, waits, errs =>
      ⟨none, waits, attempt, errs ++ ["quota limit reached"]⟩
  | rem + 1, attempt, waits, errs =>
      match env attempt with
      | .success r => ⟨some r, waits, attempt + 1, errs⟩
      | .failure msg =>
          if isQuotaMsg msg then
            retryLoop env rem (attempt + 1) (waits ++ [backoffWait attempt]) errs
          else
            ⟨none, waits, attempt + 1, errs ++ [msg]⟩

/-- `_make_ai_request_with_retry(prompt, generation_config)` with the
default `max_retries = 3`.  The prompt and generation config do not
influence control flow, so they are folded into `env`. -/
def makeAiRequestWithRetry (env : Nat → ReqOutcome) : RetryResult :=
  retryLoop env 3 0 [] []

/-- C8: In the gateway retry loop the backoff delay for attempt `a` is
`min(120, 15 * 2^a)` seconds, so the delays slept are non-decreasing
across consecutive rate-limited retries and never exceed 120 seconds; at
most 3 request attempts are made; and when all 3 attempts hit the rate
limit the loop stops, returns `None` and records the rate-limit condition
(`"quota limit reached"`) for the caller instead of looping forever. -/
theorem backoff_retry_bounded (env : Nat → ReqOutcome) :
    (makeAiRequestWithRetry env).waits =
      (List.range (makeAiRequestWithRetry env).waits.length).map backoffWait ∧
    List.Chain' (· ≤ ·) (makeAiRequestWithRetry env).waits ∧
    (∀ w ∈ (makeAiRequestWithRetry env).waits, w ≤ 120) ∧
    (makeAiRequestWithRetry env).attemptsMade ≤ 3 ∧
    ((∀ a, a < 3 → ∃ msg, env a = .failure msg ∧ isQuotaMsg msg = true) →
      (makeAiRequestWithRetry env).result = none ∧
      "quota limit reached" ∈ (makeAiRequestWithRetry env).errors ∧
      (makeAiRequestWithRetry env).attemptsMade = 3) := by
  unfold makeAiRequestWithRetry
  rcases h0 : env 0 with r0 | m0
  · simp only [retryLoop, h0]
    refine ⟨by decide, by decide, by decide, by decide, fun hq => ?_⟩
    obtain ⟨m, hm, -⟩ := hq 0 (by norm_num)
    rw [h0] at hm
    simp at hm
  · by_cases q0 : isQuotaMsg m0 = true
    · rcases h1 : env 1 with r1 | m1
      · simp only [retryLoop, h0, h1, q0, if_true]
        refine ⟨by decide, by norm_num [backoffWait, List.chain'_cons, List.chain'_singleton],
          by decide, by decide, fun hq => ?_⟩
        obtain ⟨m, hm, -⟩ := hq 1 (by norm_num)
        rw [h1] at hm
        simp at hm
      · by_cases q1 : isQuotaMsg m1 = true
        · rcases h2 : env 2 with r2 | m2
          · simp only [retryLoop, h0, h1, h2, q0, q1, if_true]
            refine ⟨by decide,
              by norm_num [backoffWait, List.chain'_cons, List.chain'_singleton],
              by decide, by decide, fun hq => ?_⟩
            obtain ⟨m, hm, -⟩ := hq 2 (by norm_num)
            rw [h2] at hm
            simp at hm
          · by_cases q2 : isQuotaMsg m2 = true
            · simp only [retryLoop, h0, h1, h2, q0, q1, q2, if_true]
              refine ⟨by decide,
                by norm_num [backoffWait, List.chain'_cons, List.chain'_singleton],
                by decide, by decide, fun _ => ⟨by simp, by simp, by decide⟩⟩
            · simp only [retryLoop, h0, h1, h2, q0, q1, if_true, if_neg q2]
              refine ⟨by decide,
                by norm_num [backoffWait, List.chain'_cons, List.chain'_singleton],
                by decide, by decide, fun hq => ?_⟩
              obtain ⟨m, hm, hmq⟩ := hq 2 (by norm_num)
              rw [h2] at hm
              injection hm with hm'
              subst hm'
              exact absurd hmq q2
        · simp only [retryLoop, h0, h1, q0, if_true, if_neg q1]
          refine ⟨by decide,
            by norm_num [backoffWait, List.chain'_cons, List.chain'_singleton],
            by decide, by decide, fun hq => ?_⟩
          obtain ⟨m, hm, hmq⟩ := hq 1 (by norm_num)
          rw [h1] at hm
          injection hm with hm'
          subst hm'
          exact absurd hmq q1
    · simp only [retryLoop, h0, if_neg q0]
      refine ⟨by decide, by decide, by decide, by decide, fun hq => ?_⟩
      obtain ⟨m, hm, hmq⟩ := hq 0 (by norm_num)
      rw [h0] at hm
      injection hm with hm'
      subst hm'
      exact absurd hmq q0

/-- Witness for `backoff_retry_bounded`: a gateway that answers HTTP 429
on every attempt makes the loop sleep 15 s then 30 s then 60 s, give up
after 3 attempts, and surface the rate-limit condition. -/
theorem backoff_retry_bounded_witness :
    (makeAiRequestWithRetry (fun _ => .failure "429 quota exceeded")).result = none ∧
    "quota limit reached" ∈
      (makeAiRequestWithRetry (fun _ => .failure "429 quota exceeded")).errors ∧
    (makeAiRequestWithRetry (fun _ => .failure "429 quota exceeded")).attemptsMade = 3 :=
  (backoff_retry_bounded (fun _ => .failure "429 quota exceeded")).2.2.2.2
    (fun _ _ => ⟨"429 quota exceeded", rfl, by decide⟩)

/-! ## Knowledge Sync — `backend/server/services/grant_sync.py` -/

/-- A row of the scrap_result action table as the sync service sees it:
the JamAI row id plus the row's column values. -/
structure SRow where
  id : String
  columns : List (String × Json)

/-- The action-table store. -/
abbrev SyncStore := List SRow

/-- The sync-status column name, `settings.jamai_knowledge_sync_status_column`
(configuration default `"knowledge_sync_status"` from `core/config.py`). -/
def syncStatusColumn : String := "knowledge_sync_status"

/-- The approval token the `where` clause matches against the
`grant_decider` column. -/
def deciderToken : String := "proceed to knowledge table sync"

/-- `GrantSyncService` configuration; `_ensure_configuration` requires
all five values to be non-empty. -/
structure SyncConfig where
  baseUrl : String
  projectId : String
  apiKey : String
  scrapTableId : String
  grantsTableId : String

/-- The names reported missing by `_ensure_configuration`. -/
def missingConfig (cfg : SyncConfig) : List String :=
  (if cfg.baseUrl == "" then ["JAMAI_BASE_URL"] else []) ++
  (if cfg.projectId == "" then ["JAMAI_PROJECT_ID"] else []) ++
  (if cfg.apiKey == "" then ["JAMAI_API_KEY"] else []) ++
  (if cfg.scrapTableId == "" then ["JAMAI_SCRAP_RESULT_TABLE_ID"] else []) ++
  (if cfg.grantsTableId == "" then ["JAMAI_GRANTS_TABLE_ID"] else [])

/-- External outcomes for one sync run: whether the knowledge-row POST
for a given payload succeeds, and whether the final status PATCH
succeeds.  Deterministic functions model "no external changes" between
runs. -/
structure SyncEnv where
  insertOk : List (String × Option String) → Bool
  patchOk : Bool

/-- A flattened knowledge row (`Dict[str, Optional[str]]`). -/
abbrev KPayload := List (String × Option String)

/-- Column value of a row seen server-side. -/
def getCol (r : SRow) (c : String) : Option Json :=
  Json.lookupKey r.columns c

/-- The `where` clause of `_list_pending_rows`:
`"grant_final" IS NOT NULL AND "grant_decider" = '<token>' AND
("<status col>" IS NULL OR "<status col>" != 'synced')`, evaluated with
SQL semantics (a NULL comparison is not true). -/
def pendingPred (r : SRow) : Bool :=
  (match getCol r "grant_final" with
   | none => false
   | some .null => false
   | some _ => true) &&
  (match getCol r "grant_decider" with
   | some (.str s) => s == deciderToken
   | _ => false) &&
  (match getCol r syncStatusColumn with
   | none => true
   | some .null => true
   | some (.str s) => s != "synced"
   | some _ => true)

/-- `_list_pending_rows(limit)`: the pending rows, `limit` of them at
most. -/
def listPendingRows (store : SyncStore) (limit : Nat) : List SRow :=
  (store.filter pendingPred).take limit

/-- `_extract_row_id`: the row id, `RuntimeError` when falsy. -/
def extractRowId (r : SRow) : Except PyErr String :=
  if r.id == "" then .error .runtimeError else .ok r.id

/-- `GrantSyncService._extract_column_value`: unwrap a dict-shaped cell
through the keys `value`, `text`, `choices`, first present wins;
otherwise return the cell itself (`Json.null` for a missing column,
Python `None`). -/
def extractColumnValueSync (columns : List (String × Json)) (name : String) : Json :=
  let data := (Json.lookupKey columns name).getD .null
  match data with
  | .obj kvs =>
      match Json.lookupKey kvs "value" with
      | some v => v
      | none =>
          match Json.lookupKey kvs "text" with
          | some v => v
          | none =>
              match Json.lookupKey kvs "choices" with
              | some v => v
              | none => data
  | _ => data

/-- Exceptions inside the per-row section of `sync_pending_grants`:
`RowSkip` and `RowFailure` are caught per row; any other exception
propagates out of the service. -/
inductive SyncErr where
  | skip (reason : String) : SyncErr
  | fail (reason : String) : SyncErr
  | py (e : PyErr) : SyncErr
deriving DecidableEq, Repr

/-- `GrantSyncService._coerce_json`: dicts pass through; strings are
stripped, empty becomes `None`, other strings must parse as JSON or a
`RowFailure` is raised; all other values pass through. -/
def coerceJsonSync (value : Json) : Except SyncErr Json :=
  match value with
  | .obj _ => .ok value
  | .str s =>
      let stripped := pyStrip s
      if stripped == "" then .ok .null
      else
        match Json.loads stripped with
        | some j => .ok j
        | none => .error (.fail "invalid JSON in grant_final")
  | _ => .ok value

/-- `_truncate_status(value, limit=200)`. -/
def truncateStatus (v : String) : String :=
  if v.length ≤ 200 then v else ⟨v.data.take 197⟩ ++ "..."

mutual

/-- Size of a JSON value, used to supply parser-free recursion fuel for
the text-collapsing helpers below. -/
def jsize : Json → Nat
  | .null => 1
  | .bool _ => 1
  | .num _ => 1
  | .str _ => 1
  | .arr xs => 1 + jsizeList xs
  | .obj kvs => 1 + jsizeObj kvs

/-- Summed size of a JSON list. -/
def jsizeList : List Json → Nat
  | [] => 0
  | x :: xs => 1 + jsize x + jsizeList xs

/-- Summed size of JSON object entries. -/
def jsizeObj : List (String × Json) → Nat
  | [] => 0
  | (_, v) :: kvs => 1 + jsize v + jsizeObj kvs

end

/-- `_normalize_text`, fuel-indexed (the fuel only bounds recursion
depth; `normalizeText` supplies `jsize`, which any descent respects):
scalars render as Python does (`str` on ints, bools being ints),
strings strip to `None` when blank, dicts try the keys `value`, `text`,
`description`, `range`, `summary` in order, lists collapse to their
normalized items joined by newlines. -/
def normalizeTextF : Nat → Json → Option String
  | 0, _ => none
  | _ + 1, .null => none
  | _ + 1, .num n => some (toString n)
  | _ + 1, .bool b => some (if b then "True" else "False")
  | _ + 1, .str s =>
      let t := pyStrip s
      if t == "" then none else some t
  | fuel + 1, .obj kvs =>
      let tryKey : String → Option String := fun k =>
        match Json.lookupKey kvs k with
        | some v =>
            match normalizeTextF fuel v with
            | some t => if t == "" then none else some t
            | none => none
        | none => none
      (tryKey "value").orElse fun _ =>
        (tryKey "text").orElse fun _ =>
          (tryKey "description").orElse fun _ =>
            (tryKey "range").orElse fun _ => tryKey "summary"
  | fuel + 1, .arr xs =>
      let items := (xs.map (normalizeTextF fuel)).filterMap id
      if items.isEmpty then none else some (String.intercalate "\n" items)

/-- `GrantSyncService._normalize_text`. -/
def normalizeText (j : Json) : Option String := normalizeTextF (jsize j) j

/-- `_extract_text`, fuel-indexed like `normalizeTextF`: scalars
normalize, dicts try `description`, `text`, `value`, `range` first and
otherwise collapse all their values depth-first, lists collapse their
items, everything joined by newlines and empty nodes skipped. -/
def extractTextF : Nat → Json → Option String
  | 0, _ => none
  | _ + 1, .null => none
  | fuel + 1, .str s => normalizeTextF fuel (.str s)
  | fuel + 1, .num n => normalizeTextF fuel (.num n)
  | fuel + 1, .bool b => normalizeTextF fuel (.bool b)
  | fuel + 1, .obj kvs =>
      let tryKey : String → Option String := fun k =>
        match Json.lookupKey kvs k with
        | some v =>
            match normalizeTextF fuel v with
            | some t => if t == "" then none else some t
            | none => none
        | none => none
      match
        (tryKey "description").orElse fun _ =>
          (tryKey "text").orElse fun _ =>
            (tryKey "value").orElse fun _ => tryKey "range"
      with
      | some t => some t
      | none =>
          let nested := (kvs.map (fun p => extractTextF fuel p.2)).filterMap id
          if nested.isEmpty then none else some (String.intercalate "\n" nested)
  | fuel + 1, .arr xs =>
      let nested := (xs.map (extractTextF fuel)).filterMap id
      if nested.isEmpty then none else some (String.intercalate "\n" nested)

/-- `GrantSyncService._extract_text`. -/
def extractText (j : Json) : Option String := extractTextF (jsize j) j

/-- `_first_non_empty(*candidates)`: the first candidate whose
normalization is truthy. -/
def firstNonEmpty (candidates : List Json) : Option String :=
  match candidates with
  | [] => none
  | c :: rest =>
      match normalizeText c with
      | some t => if t == "" then firstNonEmpty rest else some t
      | none => firstNonEmpty rest

/-- Lift an `Optional[str]` intermediate back into a candidate value for
`_first_non_empty`. -/
def optStrJson : Option String → Json
  | none => .null
  | some s => .str s

/-- `_format_required_documents`. -/
def formatRequiredDocuments (sect : Json) : Option String :=
  if !sect.pyTruthy then none
  else
    match sect with
    | .obj kvs =>
        let files := (Json.lookupKey kvs "files").getD .null
        match files with
        | .arr fs =>
            if fs.isEmpty then extractText sect
            else
              let lines := fs.filterMap (fun file =>
                match file with
                | .obj fkvs =>
                    let name := normalizeText ((Json.lookupKey fkvs "name").getD .null)
                    let dl := (Json.lookupKey fkvs "downloadUrl").getD .null
                    let su := (Json.lookupKey fkvs "sourceUrl").getD .null
                    let link := normalizeText (Json.pyOr dl su)
                    match name, link with
                    | some n, some l => some (n ++ " - " ++ l)
                    | some n, none => some n
                    | none, some l => some l
                    | none, none => none
                | _ => none)
              if lines.isEmpty then extractText sect
              else some (String.intercalate "\n" lines)
        | _ => extractText sect
    | _ => extractText sect

/-- `_map_grant_to_knowledge_row`: flatten a grant-final dict into the
knowledge-table payload.  `.get` on a truthy non-dict intermediate
raises `AttributeError`, which `sync_pending_grants` does not catch, so
the computation is in `Except PyErr`.  Candidate evaluation is eager
(Python evaluates all arguments of `_first_non_empty` and all dict-literal
values), while `or`-chains short-circuit. -/
def mapGrantToKnowledgeRow (grantData : Json) : Except PyErr KPayload := do
  let apA ← grantData.pyGet "applicationProcess"
  let apB ← grantData.pyGet "application_process"
  let applicationProcess := Json.pyOr apA apB
  let requiredDocumentsSection ← do
    let a ← grantData.pyGet "requiredDocuments"
    if a.pyTruthy then pure a
    else do
      let b ← (Json.pyOr applicationProcess (.obj [])).pyGet "requiredDocuments"
      if b.pyTruthy then pure b
      else grantData.pyGet "documentRequired"
  let gnA ← grantData.pyGet "grantName"
  let gnB ← grantData.pyGet "grant_name"
  let grantName := firstNonEmpty [optStrJson (extractText gnA), gnB]
  let gpA ← grantData.pyGet "period"
  let gpB ← grantData.pyGet "grant_period"
  let grantPeriod := firstNonEmpty [optStrJson (extractText gpA), gpB]
  let gdA ← grantData.pyGet "grantDescription"
  let gdB ← grantData.pyGet "grant_description"
  let grantDescription := firstNonEmpty [optStrJson (extractText gdA), gdB]
  let ecA ← grantData.pyGet "eligibilityCriteria"
  let ecB ← grantData.pyGet "eligibility_criteria"
  let gdRaw ← grantData.pyGet "grantDescription"
  let ecC ← (Json.pyOr gdRaw (.obj [])).pyGet "eligibilityCriteria"
  let eligibilityCriteria := firstNonEmpty
    [optStrJson (extractText ecA), optStrJson (extractText ecB),
     optStrJson (extractText ecC)]
  let stepsRaw ← (Json.pyOr applicationProcess (.obj [])).pyGet "steps"
  let asB ← grantData.pyGet "application_steps"
  let applicationSteps := firstNonEmpty
    [optStrJson (extractText stepsRaw), optStrJson (extractText asB)]
  let documentRequired := formatRequiredDocuments requiredDocumentsSection
  return [("grant_name", grantName),
          ("grant_period", grantPeriod),
          ("grant_description", grantDescription),
          ("eligibility_criteria", eligibilityCriteria),
          ("application_steps", applicationSteps),
          ("document_required", documentRequired)]

/-- Lookup in a flattened knowledge payload (`payload.get(field)`). -/
def kpayloadGet (p : KPayload) (k : String) : Option String :=
  ((p.find? (fun q => q.1 == k)).map (·.2)).getD none

/-- Does a store row carry the sentinel `"failed to verify"` in its
`grant_final` column (case-insensitively, after stripping)?  This is the
exact condition under which `_prepare_knowledge_payload` raises
`RowSkip`. -/
def sentinelRow (r : SRow) : Bool :=
  match extractColumnValueSync r.columns "grant_final" with
  | .str s => pyLower (pyStrip s) == "failed to verify"
  | _ => false

/-- `_prepare_knowledge_payload`. -/
def prepareKnowledgePayload (r : SRow) : Except SyncErr KPayload := do
  let grantFinalRaw := extractColumnValueSync r.columns "grant_final"
  if (match grantFinalRaw with | .null => true | _ => false) then
    throw (.fail "grant_final is empty")
  if sentinelRow r then
    throw (.skip "grant_final flagged as failed to verify")
  let grantData ← coerceJsonSync grantFinalRaw
  if !(grantData.isDict && grantData.pyTruthy) then
    throw (.fail "grant_final is not valid JSON")
  let payload ← (mapGrantToKnowledgeRow grantData).mapError .py
  let missing :=
    (if (kpayloadGet payload "grant_name").getD "" == "" then ["grant_name"] else []) ++
    (if (kpayloadGet payload "grant_description").getD "" == "" then ["grant_description"] else [])
  if !missing.isEmpty then
    throw (.fail ("missing required fields: " ++ String.intercalate ", " missing))
  return payload

/-- What happened to one selected row inside the sync loop. -/
inductive SyncRowOutcome where
  | skipped (reason : String) : SyncRowOutcome
  | failedPrep (reason : String) : SyncRowOutcome
  | synced (payload : KPayload) : SyncRowOutcome
  | insertFailed (payload : KPayload) : SyncRowOutcome
deriving DecidableEq, Repr

/-- The per-row outcome, as a pure function of the row and the insert
environment (the loop below is its fold; rows whose processing raises a
non-row exception have no outcome — the run itself raises). -/
def rowOutcome (env : SyncEnv) (r : SRow) : Except PyErr SyncRowOutcome :=
  match prepareKnowledgePayload r with
  | .error (.skip reason) => .ok (.skipped reason)
  | .error (.fail reason) => .ok (.failedPrep reason)
  | .error (.py e) => .error e
  | .ok payload =>
      if env.insertOk payload then .ok (.synced payload) else .ok (.insertFailed payload)

/-- The status string written for an outcome
(`skipped: ...` / `failed: ...` / `synced`). -/
def outcomeStatus : SyncRowOutcome → String
  | .skipped reason => truncateStatus ("skipped: " ++ reason)
  | .failedPrep reason => truncateStatus ("failed: " ++ reason)
  | .synced _ => "synced"
  | .insertFailed _ => truncateStatus "failed: insert error"

/-- The knowledge row inserted for an outcome, if any. -/
def outcomePayload : SyncRowOutcome → Option KPayload
  | .synced payload => some payload
  | _ => none

/-- Counters of `sync_pending_grants`'s summary dict. -/
structure SyncSummary where
  processed : Nat
  synced : Nat
  failed : Nat
  skipped : Nat
deriving DecidableEq, Repr

/-- Dict update `updates[row_id] = {status_col: value}`: one entry per
key, later assignments overwrite in place. -/
def updInsert (updates : List (String × String)) (k v : String) :
    List (String × String) :=
  dictInsert updates k v

/-- Lookup in the updates dict. -/
def updLookup (updates : List (String × String)) (k : String) : Option String :=
  dictLookup updates k

/-- The `for row in rows` loop of `sync_pending_grants`, accumulating
the summary counters, the updates dict, the inserted knowledge rows and
the (ghost) per-row outcome list. -/
def syncLoop (env : SyncEnv) :
    List SRow → SyncSummary → List (String × String) → List KPayload →
    List SyncRowOutcome →
    Except PyErr (SyncSummary × List (String × String) × List KPayload × List SyncRowOutcome)
  | [], summary, updates, inserted, outs => .ok (summary, updates, inserted, outs)
  | r :: rest, summary, updates, inserted, outs => do
      let rowId ← extractRowId r
      let out ← rowOutcome env r
      let updates' := updInsert updates rowId (outcomeStatus out)
      match out with
      | .skipped reason =>
          syncLoop env rest { summary with skipped := summary.skipped + 1 }
            updates' inserted (outs ++ [.skipped reason])
      | .failedPrep reason =>
          syncLoop env rest { summary with failed := summary.failed + 1 }
            updates' inserted (outs ++ [.failedPrep reason])
      | .synced payload =>
          syncLoop env rest { summary with synced := summary.synced + 1 }
            updates' (inserted ++ [payload]) (outs ++ [.synced payload])
      | .insertFailed payload =>
          syncLoop env rest { summary with failed := summary.failed + 1 }
            updates' inserted (outs ++ [.insertFailed payload])

/-- `_update_action_rows`: the one batch PATCH at the end of the stage,
setting the sync-status column of every updated row id. -/
def applySyncUpdates (store : SyncStore) (updates : List (String × String)) :
    SyncStore :=
  store.map (fun r =>
    match updLookup updates r.id with
    | some v => { r with columns := Json.objInsert r.columns syncStatusColumn (.str v) }
    | none => r)

/-- Result of one `sync_pending_grants` call: the summary counters, the
store after the batch status PATCH, the knowledge rows inserted, and the
per-row outcomes (instrumentation). -/
structure SyncOut where
  summary : SyncSummary
  store : SyncStore
  inserted : List KPayload
  outcomes : List SyncRowOutcome

/-- `limit = max(1, min(limit, 100))`. -/
def clampLimit (limit : Int) : Int := max 1 (min limit 100)

/-- `GrantSyncService.sync_pending_grants(limit)`. -/
def syncPendingGrants (cfg : SyncConfig) (env : SyncEnv) (store : SyncStore)
    (limit : Int) : Except PyErr SyncOut := do
  if !(missingConfig cfg).isEmpty then
    throw .runtimeError
  let lim := (clampLimit limit).toNat
  let rows := listPendingRows store lim
  let (summary, updates, inserted, outs) ←
    syncLoop env rows ⟨rows.length, 0, 0, 0⟩ [] [] []
  let store' ←
    if updates.isEmpty then pure store
    else if env.patchOk then pure (applySyncUpdates store updates)
    else throw .storeError
  return ⟨summary, store', inserted, outs⟩

/-! ### Characterization of the sync loop -/

/-- One iteration of the sync loop, as a pure function: the row id and
the row's outcome (or the exception that escapes the loop). -/
def rowStep (env : SyncEnv) (r : SRow) : Except PyErr (String × SyncRowOutcome) := do
  let i ← extractRowId r
  let o ← rowOutcome env r
  pure (i, o)

/-- All loop iterations, stopping at the first escaping exception. -/
def rowSteps (env : SyncEnv) : List SRow → Except PyErr (List (String × SyncRowOutcome))
  | [] => .ok []
  | r :: rest => do
      let p ← rowStep env r
      let ps ← rowSteps env rest
      pure (p :: ps)

/-- Boolean classifiers for outcomes. -/
def isSkipOut : SyncRowOutcome → Bool
  | .skipped _ => true
  | _ => false

/-- Whether an outcome counts into `summary["failed"]`. -/
def isFailOut : SyncRowOutcome → Bool
  | .failedPrep _ => true
  | .insertFailed _ => true
  | _ => false

/-- Whether an outcome counts into `summary["synced"]`. -/
def isSyncOut : SyncRowOutcome → Bool
  | .synced _ => true
  | _ => false

/-- The updates dict produced by a list of loop iterations. -/
def updOfSteps (upd : List (String × String))
    (steps : List (String × SyncRowOutcome)) : List (String × String) :=
  steps.foldl (fun u p => updInsert u p.1 (outcomeStatus p.2)) upd

/-- The sync loop is the fold of its per-row steps. -/
theorem syncLoop_eq (env : SyncEnv) :
    ∀ (rows : List SRow) (sum : SyncSummary) (upd : List (String × String))
      (ins : List KPayload) (outs : List SyncRowOutcome),
    syncLoop env rows sum upd ins outs =
      (rowSteps env rows).map (fun steps =>
        (⟨sum.processed,
          sum.synced + (steps.filter (fun p => isSyncOut p.2)).length,
          sum.failed + (steps.filter (fun p => isFailOut p.2)).length,
          sum.skipped + (steps.filter (fun p => isSkipOut p.2)).length⟩,
         updOfSteps upd steps,
         ins ++ steps.filterMap (fun p => outcomePayload p.2),
         outs ++ steps.map (·.2))) := by
  intro rows
  induction rows with
  | nil =>
    intro sum upd ins outs
    simp [syncLoop, rowSteps, updOfSteps, Except.map]
  | cons r rest ih =>
    intro sum upd ins outs
    simp only [syncLoop, rowSteps, rowStep, bind, Except.bind]
    cases hid : extractRowId r with
    | error e => rfl
    | ok i =>
      cases hout : rowOutcome env r with
      | error e => rfl
      | ok o =>
        simp only [pure, Except.pure]
        cases hsteps : rowSteps env rest with
        | error e =>
          cases o <;>
            simp_all [ih, Except.map]
        | ok steps =>
          cases o <;>
            simp_all [ih, Except.map, updOfSteps, isSkipOut, isFailOut, isSyncOut,
              outcomePayload, outcomeStatus, Nat.add_assoc, Nat.add_comm 1]

/-- Successful step lists pair rows with their ids and outcomes. -/
theorem rowSteps_ok_forall₂ (env : SyncEnv) :
    ∀ (rows : List SRow) (steps : List (String × SyncRowOutcome)),
    rowSteps env rows = .ok steps →
    List.Forall₂ (fun (r : SRow) (p : String × SyncRowOutcome) =>
      p.1 = r.id ∧ r.id ≠ "" ∧ rowOutcome env r = .ok p.2) rows steps := by
  intro rows
  induction rows with
  | nil =>
    intro steps h
    simp only [rowSteps] at h
    cases h
    exact .nil
  | cons r rest ih =>
    intro steps h
    simp only [rowSteps, rowStep, bind, Except.bind] at h
    cases hid : extractRowId r with
    | error e => rw [hid] at h; cases h
    | ok i =>
      rw [hid] at h
      cases hout : rowOutcome env r with
      | error e => rw [hout] at h; cases h
      | ok o =>
        rw [hout] at h
        cases hsteps : rowSteps env rest with
        | error e => rw [hsteps] at h; cases h
        | ok ps =>
          rw [hsteps] at h
          simp only [pure, Except.pure] at h
          cases h
          have hid' : i = r.id ∧ r.id ≠ "" := by
            unfold extractRowId at hid
            by_cases he : r.id == ""
            · rw [if_pos he] at hid; cases hid
            · rw [if_neg he] at hid
              cases hid
              exact ⟨rfl, by simpa using he⟩
          exact .cons ⟨hid'.1, hid'.2, hout⟩ (ih ps hsteps)

/-- Lookup after a dict update: the updated key maps to the new value,
all other keys are untouched. -/
theorem dictLookup_dictInsert {α : Type} (u : List (String × α)) (k : String)
    (v : α) (k' : String) :
    dictLookup (dictInsert u k v) k' = if k' = k then some v else dictLookup u k' := by
  unfold dictLookup dictInsert dictHasKey
  by_cases hk : u.any (fun p => p.1 == k)
  · rw [if_pos hk, List.find?_map]
    by_cases hkk : k' = k
    · subst hkk
      have hpred : ((fun p => p.1 == k') ∘ fun p : String × α =>
          if (p.1 == k') = true then (k', v) else p) =
          fun p : String × α => p.1 == k' := by
        funext p
        by_cases hp : (p.1 == k') = true
        · simp [beq_iff_eq.mp hp]
        · simp only [Function.comp_apply, if_neg hp]
      rw [hpred]
      rcases List.any_eq_true.mp hk with ⟨q, hqmem, hq⟩
      obtain ⟨w, hw⟩ : ∃ w, u.find? (fun p => p.1 == k') = some w := by
        cases hfind : u.find? (fun p => p.1 == k') with
        | none => exact absurd hq (by simpa using List.find?_eq_none.mp hfind q hqmem)
        | some w => exact ⟨w, rfl⟩
      have hwp := List.find?_some hw
      rw [hw]
      simp [beq_iff_eq.mp hwp]
    · have hpred : ((fun p => p.1 == k') ∘ fun p : String × α =>
          if (p.1 == k) = true then (k, v) else p) =
          fun p : String × α => p.1 == k' := by
        funext p
        by_cases hp : (p.1 == k) = true
        · have h1 : (k == k') = false :=
            beq_eq_false_iff_ne.mpr (fun e => hkk e.symm)
          have h2 : (p.1 == k') = false :=
            beq_eq_false_iff_ne.mpr (fun e => hkk ((beq_iff_eq.mp hp ▸ e : k = k')).symm)
          simp only [Function.comp_apply, if_pos hp, h1, h2]
        · simp only [Function.comp_apply, if_neg hp]
      rw [hpred, if_neg hkk]
      cases hfind : u.find? (fun p => p.1 == k') with
      | none => simp
      | some w =>
        have hwp := List.find?_some hfind
        have hw1 : (w.1 == k) = false :=
          beq_eq_false_iff_ne.mpr (fun e => hkk (e ▸ beq_iff_eq.mp hwp : k = k').symm)
        simp only [Option.map_map, Option.map_some', Function.comp_apply, hw1,
          Bool.false_eq_true, if_false]
  · rw [if_neg hk, List.find?_append]
    by_cases hkk : k' = k
    · subst hkk
      have hnone : u.find? (fun p => p.1 == k') = none := by
        rw [List.find?_eq_none]
        intro x hx hpx
        exact hk (List.any_eq_true.mpr ⟨x, hx, hpx⟩)
      rw [hnone]
      simp
    · have hk'k : (k == k') = false :=
        beq_eq_false_iff_ne.mpr (fun e => hkk e.symm)
      rw [if_neg hkk]
      cases hfind : u.find? (fun p => p.1 == k') with
      | none => simp [hk'k]
      | some w => simp [hk'k]

/-- Folding updates over step ids not containing `i` leaves `i`'s entry
alone. -/
theorem updOfSteps_lookup_notin (steps : List (String × SyncRowOutcome))
    (upd : List (String × String)) (i : String)
    (h : i ∉ steps.map (·.1)) :
    updLookup (updOfSteps upd steps) i = updLookup upd i := by
  induction steps generalizing upd with
  | nil => rfl
  | cons p rest ih =>
    simp only [List.map_cons, List.mem_cons, not_or] at h
    show updLookup (updOfSteps (updInsert upd p.1 (outcomeStatus p.2)) rest) i = _
    rw [ih _ h.2]
    show dictLookup (dictInsert upd p.1 _) i = _
    rw [dictLookup_dictInsert, if_neg h.1]
    rfl

/-- Folding updates over steps with distinct ids: a step's id maps to
that step's status. -/
theorem updOfSteps_lookup_mem (steps : List (String × SyncRowOutcome))
    (upd : List (String × String)) (i : String) (o : SyncRowOutcome)
    (hmem : (i, o) ∈ steps) (hnodup : (steps.map (·.1)).Nodup) :
    updLookup (updOfSteps upd steps) i = some (outcomeStatus o) := by
  induction steps generalizing upd with
  | nil => cases hmem
  | cons p rest ih =>
    simp only [List.map_cons, List.nodup_cons] at hnodup
    rcases List.mem_cons.mp hmem with heq | hmem'
    · subst heq
      show updLookup (updOfSteps (updInsert upd i (outcomeStatus o)) rest) i = _
      rw [updOfSteps_lookup_notin _ _ _ hnodup.1]
      show dictLookup (dictInsert upd i _) i = _
      rw [dictLookup_dictInsert, if_pos rfl]
    · exact ih _ hmem' hnodup.2

/-- A successful `sync_pending_grants` call decomposes into its per-row
steps: every selected row produced an outcome, the summary counts the
outcome kinds, the inserted knowledge rows are the synced payloads, and
the final store carries the batch status updates. -/
theorem syncPendingGrants_ok (cfg : SyncConfig) (env : SyncEnv) (store : SyncStore)
    (limit : Int) (out : SyncOut)
    (h : syncPendingGrants cfg env store limit = .ok out) :
    (missingConfig cfg).isEmpty = true ∧
    ∃ steps,
      rowSteps env (listPendingRows store (clampLimit limit).toNat) = .ok steps ∧
      out.summary = ⟨(listPendingRows store (clampLimit limit).toNat).length,
        (steps.filter (fun p => isSyncOut p.2)).length,
        (steps.filter (fun p => isFailOut p.2)).length,
        (steps.filter (fun p => isSkipOut p.2)).length⟩ ∧
      out.inserted = steps.filterMap (fun p => outcomePayload p.2) ∧
      out.outcomes = steps.map (·.2) ∧
      out.store = (if (updOfSteps ([] : List (String × String)) steps).isEmpty then store
                   else applySyncUpdates store (updOfSteps [] steps)) := by
  unfold syncPendingGrants at h
  by_cases hcfg : (missingConfig cfg).isEmpty
  · refine ⟨hcfg, ?_⟩
    rw [show (!(missingConfig cfg).isEmpty) = false by simp [hcfg]] at h
    simp only [Bool.false_eq_true, if_false, bind, Except.bind] at h
    rw [syncLoop_eq] at h
    cases hsteps : rowSteps env (listPendingRows store (clampLimit limit).toNat) with
    | error e => rw [hsteps] at h; cases h
    | ok steps =>
      rw [hsteps] at h
      simp only [Except.map] at h
      refine ⟨steps, rfl, ?_⟩
      by_cases hupd : (updOfSteps ([] : List (String × String)) steps).isEmpty
      · rw [if_pos hupd] at h ⊢
        simp only [pure, Except.pure] at h
        cases h
        exact ⟨by simp, rfl, rfl, rfl⟩
      · rw [if_neg hupd] at h ⊢
        by_cases hpatch : env.patchOk
        · rw [if_pos hpatch] at h
          simp only [pure, Except.pure] at h
          cases h
          exact ⟨by simp, rfl, rfl, rfl⟩
        · rw [if_neg hpatch] at h
          simp only [pure, Except.pure] at h
          cases h
  · rw [show (!(missingConfig cfg).isEmpty) = true by simp [hcfg]] at h
    simp only [if_true] at h
    cases h

/-- A sentinel-valued row always produces the `RowSkip` outcome, with
the fixed reason, before any insertion is attempted. -/
theorem rowOutcome_sentinel (env : SyncEnv) (r : SRow) (hs : sentinelRow r = true) :
    rowOutcome env r = .ok (.skipped "grant_final flagged as failed to verify") := by
  obtain ⟨s, hext⟩ : ∃ s, extractColumnValueSync r.columns "grant_final" = .str s := by
    unfold sentinelRow at hs
    cases hext : extractColumnValueSync r.columns "grant_final" with
    | str s => exact ⟨s, rfl⟩
    | null => rw [hext] at hs; cases hs
    | bool b => rw [hext] at hs; cases hs
    | num n => rw [hext] at hs; cases hs
    | arr xs => rw [hext] at hs; cases hs
    | obj kvs => rw [hext] at hs; cases hs
  unfold rowOutcome prepareKnowledgePayload
  simp only [hext, hs, if_true]
  rfl

/-- `_coerce_json` never raises `RowSkip`. -/
theorem coerceJsonSync_no_skip (v : Json) (q : String) :
    coerceJsonSync v ≠ .error (.skip q) := by
  unfold coerceJsonSync
  cases v with
  | str s =>
    by_cases he : (pyStrip s == "") = true
    · simp [he]
    · simp only [he, Bool.false_eq_true, if_false]
      cases Json.loads (pyStrip s) <;> simp
  | null => simp
  | bool b => simp
  | num n => simp
  | arr xs => simp
  | obj kvs => simp

/-- Re-tagged mapping exceptions are never `RowSkip`. -/
theorem mapError_py_no_skip (x : Except PyErr KPayload) (q : String) :
    Except.mapError SyncErr.py x ≠ .error (.skip q) := by
  cases x <;> simp [Except.mapError]

/-- The missing-fields check raises `RowFailure`, never `RowSkip`. -/
theorem ite_fail_no_skip (c : Bool) (m : String) (p : KPayload) (q : String) :
    (if c = true then (.error (.fail m) : Except SyncErr KPayload) else .ok p) ≠
      .error (.skip q) := by
  cases c <;> simp

/-- Conversely, `RowSkip` arises only from the sentinel check: a skipped
row is sentinel-valued and the reason is the fixed message. -/
theorem prepare_skip_inv (r : SRow) (reason : String)
    (h : prepareKnowledgePayload r = .error (.skip reason)) :
    sentinelRow r = true ∧ reason = "grant_final flagged as failed to verify" := by
  unfold prepareKnowledgePayload at h
  simp only [bind, Except.bind, pure, Except.pure] at h
  split at h
  · cases h
  · split at h
    · cases h
      exact ⟨by assumption, rfl⟩
    · exfalso
      split at h
      · rename_i e heq
        cases e with
        | skip q => exact coerceJsonSync_no_skip _ _ heq
        | fail q => cases h
        | py q => cases h
      · split at h
        · cases h
        · split at h
          · rename_i e heq2
            cases h
            exact mapError_py_no_skip _ _ heq2
          · exact ite_fail_no_skip _ _ _ _ h

/-- An outcome of kind `skipped` can only come from the sentinel check. -/
theorem rowOutcome_skip_inv (env : SyncEnv) (r : SRow) (reason : String)
    (h : rowOutcome env r = .ok (.skipped reason)) :
    sentinelRow r = true ∧ reason = "grant_final flagged as failed to verify" := by
  unfold rowOutcome at h
  split at h
  · rename_i rr heq
    cases h
    exact prepare_skip_inv _ _ heq
  · rename_i rr heq
    cases h
  · cases h
  · rename_i payload heq
    split at h <;> cases h

/-- A member of the left list of a `Forall₂` has a related member on the
right. -/
theorem forall₂_mem_left {α β : Type} {R : α → β → Prop} :
    ∀ {l₁ : List α} {l₂ : List β}, List.Forall₂ R l₁ l₂ → ∀ {a}, a ∈ l₁ →
      ∃ b ∈ l₂, R a b := by
  intro l₁ l₂ h
  induction h with
  | nil => intro a ha; cases ha
  | cons hR hrest ih =>
    intro a ha
    rcases List.mem_cons.mp ha with rfl | ha'
    · exact ⟨_, List.mem_cons_self _ _, hR⟩
    · rcases ih ha' with ⟨b, hb, hRb⟩
      exact ⟨b, List.mem_cons_of_mem _ hb, hRb⟩

/-- Lists related by `Forall₂` have equal filter counts when the
predicates agree across the relation. -/
theorem forall₂_filter_length {α β : Type} {R : α → β → Prop} (p : α → Bool)
    (q : β → Bool) :
    ∀ {l₁ : List α} {l₂ : List β}, List.Forall₂ R l₁ l₂ →
      (∀ a b, R a b → p a = q b) →
      (l₁.filter p).length = (l₂.filter q).length := by
  intro l₁ l₂ h
  induction h with
  | nil => intro _; rfl
  | cons hR hrest ih =>
    intro hpq
    rename_i a b l₁' l₂'
    simp only [List.filter_cons]
    rw [hpq a b hR]
    cases q b with
    | true => simp [ih hpq]
    | false => simp [ih hpq]

/-- The ids of a successful step list are the selected rows' ids. -/
theorem forall₂_fst_map (env : SyncEnv) :
    ∀ {rows : List SRow} {steps : List (String × SyncRowOutcome)},
      List.Forall₂ (fun (r : SRow) (p : String × SyncRowOutcome) =>
        p.1 = r.id ∧ r.id ≠ "" ∧ rowOutcome env r = .ok p.2) rows steps →
      steps.map (·.1) = rows.map SRow.id := by
  intro rows steps h
  induction h with
  | nil => rfl
  | cons hR hrest ih => simp [ih, hR.1]

/-- C5: For every selected store row whose `grant_final` value is the
sentinel `"failed to verify"` (case-insensitively, after trimming),
Knowledge Sync inserts no knowledge row for it (its outcome is the
`skipped` one, and inserted rows are exactly the synced payloads), marks
its sync-status column with a value beginning `"skipped:"` (the fixed
message `"skipped: grant_final flagged as failed to verify"`), and the
`skipped` counter counts exactly these rows — never `synced` or
`failed`.  Row ids are assumed unique, as the store guarantees. -/
theorem sync_sentinel_skipped (cfg : SyncConfig) (env : SyncEnv) (store : SyncStore)
    (limit : Int) (out : SyncOut)
    (hids : (store.map SRow.id).Nodup)
    (h : syncPendingGrants cfg env store limit = .ok out) :
    out.summary.skipped =
      ((listPendingRows store (clampLimit limit).toNat).filter sentinelRow).length ∧
    out.inserted = out.outcomes.filterMap outcomePayload ∧
    List.Forall₂ (fun (r : SRow) (o : SyncRowOutcome) =>
        sentinelRow r = true ↔ o = .skipped "grant_final flagged as failed to verify")
      (listPendingRows store (clampLimit limit).toNat) out.outcomes ∧
    (∀ r ∈ listPendingRows store (clampLimit limit).toNat, sentinelRow r = true →
      ∀ r' ∈ out.store, r'.id = r.id →
        getCol r' syncStatusColumn =
          some (.str "skipped: grant_final flagged as failed to verify")) := by
  obtain ⟨hcfg, steps, hsteps, hsum, hins, houts, hstore⟩ :=
    syncPendingGrants_ok cfg env store limit out h
  have hf2 := rowSteps_ok_forall₂ env _ steps hsteps
  have hrowsNodup :
      ((listPendingRows store (clampLimit limit).toNat).map SRow.id).Nodup := by
    refine List.Nodup.sublist (List.Sublist.map SRow.id ?_) hids
    exact (List.take_sublist _ _).trans (List.filter_sublist _)
  have hstepsNodup : (steps.map (·.1)).Nodup := by
    rw [forall₂_fst_map env hf2]
    exact hrowsNodup
  refine ⟨?_, ?_, ?_, ?_⟩
  · rw [hsum]
    exact (forall₂_filter_length sentinelRow (fun p => isSkipOut p.2) hf2
      (fun r p hR => by
        rcases hR with ⟨hid, hne, hout⟩
        by_cases hs : sentinelRow r = true
        · rw [hs]
          rw [rowOutcome_sentinel env r hs] at hout
          have hp2 : p.2 = .skipped "grant_final flagged as failed to verify" :=
            (Except.ok.inj hout.symm)
          simp [isSkipOut, hp2]
        · rw [Bool.not_eq_true] at hs
          rw [hs]
          cases hso : isSkipOut p.2 with
          | false => simpa using hso.symm
          | true =>
            exfalso
            cases p2 : p.2 with
            | skipped reason =>
              rw [p2] at hout
              have := (rowOutcome_skip_inv env r reason hout).1
              rw [hs] at this
              cases this
            | failedPrep reason => rw [p2] at hso; cases hso
            | synced payload => rw [p2] at hso; cases hso
            | insertFailed payload => rw [p2] at hso; cases hso)).symm
  · rw [hins, houts, List.filterMap_map]
    rfl
  · rw [houts]
    rw [List.forall₂_map_right_iff]
    refine hf2.imp ?_
    intro r p hR
    rcases hR with ⟨hid, hne, hout⟩
    constructor
    · intro hs
      rw [rowOutcome_sentinel env r hs] at hout
      exact (Except.ok.inj hout.symm)
    · intro hp
      rw [hp] at hout
      exact (rowOutcome_skip_inv env r _ hout).1
  · intro r hr hs r' hr' hid'
    obtain ⟨p, hpmem, hid, hne, hout⟩ := forall₂_mem_left hf2 hr
    rw [rowOutcome_sentinel env r hs] at hout
    have hpair : (r.id, SyncRowOutcome.skipped "grant_final flagged as failed to verify") ∈ steps := by
      have hp2 : p.2 = SyncRowOutcome.skipped "grant_final flagged as failed to verify" :=
        (Except.ok.inj hout.symm)
      have : p = (r.id, SyncRowOutcome.skipped "grant_final flagged as failed to verify") := by
        rw [← hid, ← hp2]
      rwa [this] at hpmem
    have hlook := updOfSteps_lookup_mem steps [] r.id _ hpair hstepsNodup
    have hne' : (updOfSteps ([] : List (String × String)) steps).isEmpty = false := by
      cases hupd : updOfSteps ([] : List (String × String)) steps with
      | nil => rw [hupd] at hlook; cases hlook
      | cons a b => rfl
    rw [hne'] at hstore
    simp only [Bool.false_eq_true, if_false] at hstore
    rw [hstore] at hr'
    obtain ⟨r₀, hr₀, hfr₀⟩ := List.mem_map.mp hr'
    revert hfr₀
    cases hl : updLookup (updOfSteps [] steps) r₀.id with
    | none =>
      intro hfr₀
      rw [← hfr₀] at hid'
      rw [hid'] at hl
      rw [hl] at hlook
      cases hlook
    | some v =>
      intro hfr₀
      have hidr : r₀.id = r.id := by rw [← hfr₀] at hid'; exact hid'
      rw [hidr] at hl
      rw [hl] at hlook
      cases hlook
      rw [← hfr₀]
      show dictLookup (dictInsert r₀.columns syncStatusColumn _) syncStatusColumn = _
      rw [dictLookup_dictInsert, if_pos rfl]
      rfl

/-- The store of the C5 witness scenario: one pending row flagged with
the sentinel, with spacing and capitalization to exercise the trimmed,
case-insensitive comparison. -/
def syncDemoStore : SyncStore :=
  [⟨"r1", [("grant_final", .str "  Failed To Verify "),
           ("grant_decider", .str "proceed to knowledge table sync")]⟩]

/-- Complete configuration for the witness scenarios. -/
def syncDemoCfg : SyncConfig := ⟨"url", "proj", "key", "scrap", "grants"⟩

/-- Benign external services for the witness scenarios. -/
def syncDemoEnv : SyncEnv := ⟨fun _ => true, true⟩

/-- The result of the C5 witness run. -/
def syncDemoOut : SyncOut :=
  match syncPendingGrants syncDemoCfg syncDemoEnv syncDemoStore 20 with
  | .ok out => out
  | .error _ => ⟨⟨0, 0, 0, 0⟩, [], [], []⟩

/-- Witness for `sync_sentinel_skipped`: the sentinel row is counted as
skipped and nothing is inserted. -/
theorem sync_sentinel_skipped_witness :
    syncDemoOut.summary.skipped = 1 ∧ syncDemoOut.inserted = [] ∧
    syncDemoOut.summary.synced = 0 ∧ syncDemoOut.summary.failed = 0 :=
  have happ := sync_sentinel_skipped syncDemoCfg syncDemoEnv syncDemoStore 20
    syncDemoOut (by decide) (by rfl)
  ⟨by rw [happ.1]; rfl, by rw [happ.2.1]; rfl, by rfl, by rfl⟩

/-- The updates dict is nonempty once it starts nonempty. -/
theorem updOfSteps_ne_nil (steps : List (String × SyncRowOutcome))
    (upd : List (String × String)) (h : upd ≠ []) : updOfSteps upd steps ≠ [] := by
  induction steps generalizing upd with
  | nil => exact h
  | cons p rest ih =>
    show updOfSteps (updInsert upd p.1 (outcomeStatus p.2)) rest ≠ []
    apply ih
    show dictInsert upd p.1 (outcomeStatus p.2) ≠ []
    unfold dictInsert
    split
    · intro hc
      exact h (List.map_eq_nil_iff.mp hc)
    · intro hc
      exact (List.append_ne_nil_of_right_ne_nil upd (by simp)) hc

/-- Only processed row ids appear in the updates dict. -/
theorem updOfSteps_lookup_some_mem (steps : List (String × SyncRowOutcome))
    (i : String) (v : String)
    (h : updLookup (updOfSteps [] steps) i = some v) : i ∈ steps.map (·.1) := by
  by_contra hni
  rw [updOfSteps_lookup_notin steps [] i hni] at h
  cases h

/-- C4 (amended): rows whose sync-status column holds `"synced"` are
never selected by the pending-rows predicate; and when a sync run
succeeds with every selected row synced (no skips, no failures) and the
pending set fits within the clamped limit, a second invocation with no
external changes selects nothing and returns `processed = 0`.  The
original claim fails for rows marked `skipped:`/`failed:`, which the
`where` clause selects again — see the counterexample. -/
theorem sync_synced_not_reselected (cfg : SyncConfig) (env : SyncEnv)
    (store : SyncStore) (limit : Int) (out : SyncOut)
    (hids : (store.map SRow.id).Nodup)
    (h : syncPendingGrants cfg env store limit = .ok out)
    (hall : (store.filter pendingPred).length ≤ (clampLimit limit).toNat)
    (hskip : out.summary.skipped = 0) (hfail : out.summary.failed = 0) :
    (∀ r : SRow, getCol r syncStatusColumn = some (.str "synced") →
      pendingPred r = false) ∧
    syncPendingGrants cfg env out.store limit = .ok ⟨⟨0, 0, 0, 0⟩, out.store, [], []⟩ := by
  have hsyncedNotPending : ∀ r : SRow,
      getCol r syncStatusColumn = some (.str "synced") → pendingPred r = false := by
    intro r hr
    unfold pendingPred
    rw [hr]
    simp
  refine ⟨hsyncedNotPending, ?_⟩
  obtain ⟨hcfg, steps, hsteps, hsum, hins, houts, hstore⟩ :=
    syncPendingGrants_ok cfg env store limit out h
  have hrows : listPendingRows store (clampLimit limit).toNat = store.filter pendingPred := by
    unfold listPendingRows
    exact List.take_of_length_le hall
  have hf2 := rowSteps_ok_forall₂ env _ steps hsteps
  have hallSynced : ∀ p ∈ steps, ∃ payload, p.2 = SyncRowOutcome.synced payload := by
    intro p hp
    have hskip' : (steps.filter (fun p => isSkipOut p.2)).length = 0 := by
      have := hsum ▸ hskip
      simpa using this
    have hfail' : (steps.filter (fun p => isFailOut p.2)).length = 0 := by
      have := hsum ▸ hfail
      simpa using this
    rw [List.length_eq_zero, List.filter_eq_nil_iff] at hskip' hfail'
    have h1 := hskip' p hp
    have h2 := hfail' p hp
    cases hp2 : p.2 with
    | skipped reason => rw [hp2] at h1; simp [isSkipOut] at h1
    | failedPrep reason => rw [hp2] at h2; simp [isFailOut] at h2
    | insertFailed payload => rw [hp2] at h2; simp [isFailOut] at h2
    | synced payload => exact ⟨payload, rfl⟩
  have hnotPending : ∀ r' ∈ out.store, pendingPred r' = false := by
    by_cases hupd : (updOfSteps ([] : List (String × String)) steps).isEmpty
    · -- no updates at all: the loop saw no rows, so nothing was pending
      have hstepsNil : steps = [] := by
        cases hst : steps with
        | nil => rfl
        | cons p rest =>
          exfalso
          have : updOfSteps ([] : List (String × String)) steps ≠ [] := by
            rw [hst]
            show updOfSteps (updInsert [] p.1 (outcomeStatus p.2)) rest ≠ []
            apply updOfSteps_ne_nil
            simp [updInsert, dictInsert, dictHasKey]
          rw [List.isEmpty_iff] at hupd
          exact this hupd
      have hrowsNil : store.filter pendingPred = [] := by
        rw [hstepsNil] at hf2
        cases hf2' : listPendingRows store (clampLimit limit).toNat with
        | nil => rw [← hrows]; exact hf2'
        | cons a b =>
          rw [hf2'] at hf2
          cases hf2
      rw [hupd] at hstore
      simp only [if_true] at hstore
      rw [hstore]
      intro r' hr'
      have := List.filter_eq_nil_iff.mp hrowsNil r' hr'
      simpa using this
    · rw [show ((updOfSteps ([] : List (String × String)) steps).isEmpty) = false by
        simpa using hupd] at hstore
      simp only [Bool.false_eq_true, if_false] at hstore
      rw [hstore]
      intro r' hr'
      obtain ⟨r₀, hr₀, hfr₀⟩ := List.mem_map.mp hr'
      by_cases hpend : pendingPred r₀ = true
      · -- selected row: its status was set to "synced"
        have hmem : r₀ ∈ listPendingRows store (clampLimit limit).toNat := by
          rw [hrows]
          exact List.mem_filter.mpr ⟨hr₀, hpend⟩
        obtain ⟨p, hpmem, hid, hne, hout⟩ := forall₂_mem_left hf2 hmem
        obtain ⟨payload, hp2⟩ := hallSynced p hpmem
        have hpair : (r₀.id, SyncRowOutcome.synced payload) ∈ steps := by
          have : p = (r₀.id, SyncRowOutcome.synced payload) := by
            rw [← hid, ← hp2]
          rwa [this] at hpmem
        have hstepsNodup : (steps.map (·.1)).Nodup := by
          rw [forall₂_fst_map env hf2, hrows]
          exact List.Nodup.sublist (List.Sublist.map SRow.id (List.filter_sublist _)) hids
        have hlook := updOfSteps_lookup_mem steps [] r₀.id _ hpair hstepsNodup
        rw [← hfr₀]
        revert hlook
        cases hl : updLookup (updOfSteps [] steps) r₀.id with
        | none => intro hlook; cases hlook
        | some v =>
          intro hlook
          have hv : v = "synced" := Option.some.inj hlook
          apply hsyncedNotPending
          show dictLookup (dictInsert r₀.columns syncStatusColumn (.str v)) syncStatusColumn = _
          rw [dictLookup_dictInsert, if_pos rfl, hv]
      · -- unselected row: untouched by the batch update
        have hlnone : updLookup (updOfSteps [] steps) r₀.id = none := by
          cases hl : updLookup (updOfSteps [] steps) r₀.id with
          | none => rfl
          | some v =>
            exfalso
            have hin := updOfSteps_lookup_some_mem steps r₀.id v hl
            rw [forall₂_fst_map env hf2, hrows] at hin
            obtain ⟨r₁, hr₁, hide⟩ := List.mem_map.mp hin
            have hr₁' := List.mem_filter.mp hr₁
            have : r₁ = r₀ :=
              List.inj_on_of_nodup_map hids hr₁'.1 hr₀ hide
            rw [this] at hr₁'
            exact hpend hr₁'.2
        rw [← hfr₀]
        show pendingPred (match updLookup (updOfSteps [] steps) r₀.id with
          | some v => { r₀ with columns := Json.objInsert r₀.columns syncStatusColumn (.str v) }
          | none => r₀) = false
        rw [hlnone]
        simpa using hpend
  have hrows2 : listPendingRows out.store (clampLimit limit).toNat = [] := by
    unfold listPendingRows
    rw [List.filter_eq_nil_iff.mpr (fun r' hr' => by simp [hnotPending r' hr'])]
    exact List.take_nil
  unfold syncPendingGrants
  rw [show (!(missingConfig cfg).isEmpty) = false by simp [hcfg]]
  simp only [Bool.false_eq_true, if_false, hrows2, syncLoop, bind, Except.bind,
    pure, Except.pure, List.length_nil, List.isEmpty_nil, if_true]

/-- Two consecutive sync runs with no external changes: the `processed`
count the second run reports (or `none` if either run raises). -/
def syncTwiceProcessed (cfg : SyncConfig) (env : SyncEnv) (store : SyncStore)
    (limit : Int) : Option Nat :=
  match syncPendingGrants cfg env store limit with
  | .ok out =>
      match syncPendingGrants cfg env out.store limit with
      | .ok out2 => some out2.summary.processed
      | .error _ => none
  | .error _ => none

/-- The C4 counterexample store: one pending row whose `grant_final` is
the sentinel.  The first run marks it `skipped: ...`, which the `where`
clause does not exclude, so the second run selects it again. -/
def c4Store : SyncStore :=
  [⟨"s1", [("grant_final", .str "failed to verify"),
           ("grant_decider", .str "proceed to knowledge table sync")]⟩]

/-- C4 counterexample: after a completed sync run that wrote its status
marks (one row processed and marked `skipped: ...`), a second
`sync_pending_grants` call with no external changes returns
`processed = 1`, not `processed = 0` as the claim states. -/
theorem sync_rerun_counterexample :
    (syncPendingGrants syncDemoCfg syncDemoEnv c4Store 20).map
        (fun out => (out.summary.processed, out.summary.skipped)) = .ok (1, 1) ∧
    syncTwiceProcessed syncDemoCfg syncDemoEnv c4Store 20 = some 1 :=
  ⟨rfl, rfl⟩

/-- The witness store for the amended C4 claim: one pending row whose
`grant_final` maps cleanly into a knowledge row. -/
def c4GoodStore : SyncStore :=
  [⟨"g1", [("grant_final", .str "\x7b\"grantName\":\x7b\"value\":\"Grant G\",\"sourceUrl\":\"u\"\x7d,\"grantDescription\":\x7b\"text\":\"About G\",\"sourceUrl\":\"u\"\x7d\x7d"),
           ("grant_decider", .str "proceed to knowledge table sync")]⟩]

/-- The first run of the amended-C4 witness scenario. -/
def c4GoodOut : SyncOut :=
  match syncPendingGrants syncDemoCfg syncDemoEnv c4GoodStore 20 with
  | .ok out => out
  | .error _ => ⟨⟨0, 0, 0, 0⟩, [], [], []⟩

/-- Witness for `sync_synced_not_reselected`: after a run that synced
its one pending row, the second run selects nothing. -/
theorem sync_synced_not_reselected_witness :
    syncPendingGrants syncDemoCfg syncDemoEnv c4GoodOut.store 20 =
      .ok ⟨⟨0, 0, 0, 0⟩, c4GoodOut.store, [], []⟩ :=
  (sync_synced_not_reselected syncDemoCfg syncDemoEnv c4GoodStore 20 c4GoodOut
    (by decide) (by rfl) (by decide) (by rfl) (by rfl)).2

/-- C10: `sync_pending_grants` clamps the effective row limit to
`[1, 100]` — a zero or negative limit is treated as 1, an oversized
limit as 100 — and consequently a successful run processes at most 100
rows, whatever integer limit was passed. -/
theorem sync_limit_clamped (limit : Int) (cfg : SyncConfig) (env : SyncEnv)
    (store : SyncStore) :
    1 ≤ clampLimit limit ∧ clampLimit limit ≤ 100 ∧
    (limit ≤ 0 → clampLimit limit = 1) ∧
    (∀ out, syncPendingGrants cfg env store limit = .ok out →
      out.summary.processed ≤ 100) := by
  refine ⟨by unfold clampLimit; omega, by unfold clampLimit; omega,
    fun h => by unfold clampLimit; omega, ?_⟩
  intro out h
  obtain ⟨hcfg, steps, hsteps, hsum, -, -, -⟩ :=
    syncPendingGrants_ok cfg env store limit out h
  rw [hsum]
  show (listPendingRows store (clampLimit limit).toNat).length ≤ 100
  calc (listPendingRows store (clampLimit limit).toNat).length
      ≤ (clampLimit limit).toNat := List.length_take_le _ _
    _ ≤ 100 := by unfold clampLimit; omega

/-- Witness for `sync_limit_clamped`: a negative limit is clamped to 1
and a concrete successful run processes at most 100 rows. -/
theorem sync_limit_clamped_witness :
    clampLimit (-7) = 1 ∧ syncDemoOut.summary.processed ≤ 100 :=
  ⟨(sync_limit_clamped (-7) syncDemoCfg syncDemoEnv syncDemoStore).2.2.1 (by decide),
   (sync_limit_clamped 20 syncDemoCfg syncDemoEnv syncDemoStore).2.2.2 syncDemoOut (by rfl)⟩

/-! ## Candidate Discovery — `backend/agents/agent1.py`, `WebScraperAgent` -/

/-- `name.strip().lower()`, the normalization used for name matching in
both discovery and upsert. -/
def normName (s : String) : String := pyLower (pyStrip s)

/-- The existing-names filter of `scrape_all_grants` (the loop right
after the candidate list is fetched): names whose normalized form is in
the existing set are recorded as skipped, the rest keep their order.
Mirrors `if existing_grant_names:` — a `None` or empty set disables the
filter (vacuously equal to filtering with an empty set). -/
def filterExisting (grantNames : List String) (existing : Option (List String)) :
    List String × List String :=
  match existing with
  | none => ([], grantNames)
  | some names =>
      if names.isEmpty then ([], grantNames)
      else
        (grantNames.filter (fun n => names.contains (normName n)),
         grantNames.filter (fun n => !names.contains (normName n)))

/-- `_validate_exact_structure` (and `_is_valid_final_payload` of
`agent2.py`, whose checks are identical): the fixed nested grant schema.
Any `in`/`[...]` on a non-container raises and the `except` returns
`False`. -/
def validateExactStructureE (grant : Json) : Except PyErr Bool := do
  let k1 ← Json.pyIn "grantName" grant
  let k2 ← Json.pyIn "period" grant
  let k3 ← Json.pyIn "grantDescription" grant
  let k4 ← Json.pyIn "applicationProcess" grant
  if !(k1 && k2 && k3 && k4) then return false
  let gn ← grant.pyIndex "grantName"
  let g1 ← Json.pyIn "value" gn
  let g2 ← Json.pyIn "sourceUrl" gn
  if !(g1 && g2) then return false
  let pd ← grant.pyIndex "period"
  let p1 ← Json.pyIn "range" pd
  let p2 ← Json.pyIn "sourceUrl" pd
  if !(p1 && p2) then return false
  let gd ← grant.pyIndex "grantDescription"
  let d1 ← Json.pyIn "text" gd
  let d2 ← Json.pyIn "sourceUrl" gd
  if !(d1 && d2) then return false
  let ap ← grant.pyIndex "applicationProcess"
  let a1 ← Json.pyIn "steps" ap
  let a2 ← Json.pyIn "requiredDocuments" ap
  if !(a1 && a2) then return false
  let st ← ap.pyIndex "steps"
  let s1 ← Json.pyIn "description" st
  let s2 ← Json.pyIn "sourceUrl" st
  if !(s1 && s2) then return false
  let rd ← ap.pyIndex "requiredDocuments"
  let r1 ← Json.pyIn "sourceUrl" rd
  let r2 ← Json.pyIn "files" rd
  if !(r1 && r2) then return false
  let hasFiles ← Json.pyIn "files" rd
  if hasFiles then
    let files ← rd.pyIndex "files"
    match files with
    | .arr fs =>
        let mut ok := true
        for f in fs do
          let f1 ← Json.pyIn "name" f
          let f2 ← Json.pyIn "downloadUrl" f
          let f3 ← Json.pyIn "sourceUrl" f
          if !(f1 && f2 && f3) then ok := false
        if !ok then return false
    | _ => pure ()
  return true

/-- `_validate_exact_structure` with the `except: return False`
collapse. -/
def validateExactStructure (grant : Json) : Bool :=
  match validateExactStructureE grant with
  | .ok b => b
  | .error _ => false

/-- The per-name detail phase environment: the outcome of
`_search_single_grant_ai` for each name (`None` when the request or its
parse failed; the function validates internally before returning). -/
structure ScrapeEnv where
  detail : String → Option Json

/-- Accumulated state of `_sequential_scraping`: the valid grants, the
processed and failed name lists, and the trace of names for which a
detail request was issued. -/
structure SequentialResult where
  scraped : List Json
  processedNames : List String
  failedGrants : List String
  detailRequests : List String

/-- `_sequential_scraping`: one detail request per name, in order; a
result that is missing or fails `_validate_exact_structure` goes to
`failed_grants` with the reason the code formats. -/
def sequentialScraping (env : ScrapeEnv) : List String → SequentialResult
  | [] => ⟨[], [], [], []⟩
  | n :: rest =>
      let r := sequentialScraping env rest
      match env.detail n with
      | some g =>
          if validateExactStructure g then
            ⟨g :: r.scraped, n :: r.processedNames, r.failedGrants, n :: r.detailRequests⟩
          else
            ⟨r.scraped, r.processedNames, (n ++ " - invalid structure") :: r.failedGrants,
             n :: r.detailRequests⟩
      | none =>
          ⟨r.scraped, r.processedNames, (n ++ " - no data returned") :: r.failedGrants,
           n :: r.detailRequests⟩

/-- Observable result of `scrape_all_grants` from the point where the
candidate names are known (the candidate-list request and the final
`_create_grant_entries` conversion — fresh UUIDs and timestamps — are
outside every claim). -/
structure ScrapeOut where
  scraped : List Json
  skippedExisting : List String
  failedGrants : List String
  detailRequests : List String

/-- `scrape_all_grants(existing_grant_names, ...)` after the candidate
list has been fetched: filter the names against the existing set, stop
early when nothing remains, else scrape sequentially. -/
def scrapeAllGrants (grantNames : List String) (existing : Option (List String))
    (env : ScrapeEnv) : ScrapeOut :=
  if grantNames.isEmpty then ⟨[], [], [], []⟩
  else
    let (skipped, remaining) := filterExisting grantNames existing
    if remaining.isEmpty then ⟨[], skipped, [], []⟩
    else
      let seq := sequentialScraping env remaining
      ⟨seq.scraped, skipped, seq.failedGrants, seq.detailRequests⟩

/-- Sequential scraping issues exactly one detail request per remaining
name, in their original order. -/
theorem sequentialScraping_requests (env : ScrapeEnv) :
    ∀ names : List String, (sequentialScraping env names).detailRequests = names := by
  intro names
  induction names with
  | nil => rfl
  | cons n rest ih =>
    unfold sequentialScraping
    cases env.detail n with
    | some g =>
      by_cases hv : validateExactStructure g = true
      · simp only [hv, if_true]
        show n :: (sequentialScraping env rest).detailRequests = n :: rest
        rw [ih]
      · simp only [hv, Bool.false_eq_true, if_false]
        show n :: (sequentialScraping env rest).detailRequests = n :: rest
        rw [ih]
    | none =>
      show n :: (sequentialScraping env rest).detailRequests = n :: rest
      rw [ih]

/-- The existing-names filter as two order-preserving `filter`s (the
empty-set branch, where the code skips the loop entirely, filters
nothing — vacuously the same). -/
theorem filterExisting_eq (grantNames existingSet : List String) :
    filterExisting grantNames (some existingSet) =
      (grantNames.filter (fun n => existingSet.contains (normName n)),
       grantNames.filter (fun n => !existingSet.contains (normName n))) := by
  show (if existingSet.isEmpty = true then ([], grantNames)
        else (grantNames.filter (fun n => existingSet.contains (normName n)),
              grantNames.filter (fun n => !existingSet.contains (normName n)))) = _
  by_cases hset : existingSet.isEmpty
  · rw [if_pos hset]
    rw [List.isEmpty_iff] at hset
    subst hset
    simp [List.contains]
  · rw [if_neg hset]

/-- C9: every discovered grant name whose trimmed, lower-cased form is
in the existing-names set is recorded in `skippedExisting` and removed
from the processing list before any per-name detail request; the
remaining names are exactly the non-matching ones, unchanged and in
their original order, and the detail requests are issued precisely for
them. -/
theorem discovery_skips_existing (grantNames : List String)
    (existingSet : List String) (env : ScrapeEnv) :
    (scrapeAllGrants grantNames (some existingSet) env).skippedExisting =
      grantNames.filter (fun n => existingSet.contains (normName n)) ∧
    (scrapeAllGrants grantNames (some existingSet) env).detailRequests =
      grantNames.filter (fun n => !existingSet.contains (normName n)) ∧
    (∀ n ∈ grantNames, existingSet.contains (normName n) = true →
      n ∈ (scrapeAllGrants grantNames (some existingSet) env).skippedExisting ∧
      n ∉ (scrapeAllGrants grantNames (some existingSet) env).detailRequests) := by
  have hmain :
      (scrapeAllGrants grantNames (some existingSet) env).skippedExisting =
        grantNames.filter (fun n => existingSet.contains (normName n)) ∧
      (scrapeAllGrants grantNames (some existingSet) env).detailRequests =
        grantNames.filter (fun n => !existingSet.contains (normName n)) := by
    unfold scrapeAllGrants
    rw [filterExisting_eq]
    dsimp only
    by_cases hempty : grantNames.isEmpty
    · rw [if_pos hempty]
      rw [List.isEmpty_iff] at hempty
      subst hempty
      exact ⟨rfl, rfl⟩
    · rw [if_neg hempty]
      by_cases hrem : (grantNames.filter (fun n => !existingSet.contains (normName n))).isEmpty
      · rw [if_pos hrem]
        rw [List.isEmpty_iff] at hrem
        exact ⟨rfl, hrem.symm⟩
      · rw [if_neg hrem]
        exact ⟨rfl, sequentialScraping_requests env _⟩
  refine ⟨hmain.1, hmain.2, fun n hn hmem => ?_⟩
  constructor
  · rw [hmain.1]
    exact List.mem_filter.mpr ⟨hn, hmem⟩
  · rw [hmain.2]
    intro hcontra
    have := (List.mem_filter.mp hcontra).2
    rw [hmem] at this
    cases this

/-- Witness for `discovery_skips_existing` at a concrete run: one known
name is skipped before the detail phase, the other proceeds. -/
theorem discovery_skips_existing_witness :
    (scrapeAllGrants ["Digital Grant X ", "New Grant"] (some ["digital grant x"])
        ⟨fun _ => none⟩).skippedExisting = ["Digital Grant X "] ∧
    (scrapeAllGrants ["Digital Grant X ", "New Grant"] (some ["digital grant x"])
        ⟨fun _ => none⟩).detailRequests = ["New Grant"] ∧
    "Digital Grant X " ∉
      (scrapeAllGrants ["Digital Grant X ", "New Grant"] (some ["digital grant x"])
        ⟨fun _ => none⟩).detailRequests :=
  have happ := discovery_skips_existing ["Digital Grant X ", "New Grant"]
    ["digital grant x"] ⟨fun _ => none⟩
  ⟨by rw [happ.1]; rfl, by rw [happ.2.1]; rfl,
   (happ.2.2 "Digital Grant X " (by decide) (by decide)).2⟩

/-! ## Upsert Engine — `agent1.py`, `JamAIBaseClient.add_or_update_grant_entries` -/

/-- A candidate grant entry bound for the scrap_result table
(`GrantEntry` of `agent1.py`): `grant_scrap` holds the grant JSON as a
string. -/
structure GrantEntry where
  id : String
  grant_scrap : String
  updated_at : String
  status : String
deriving DecidableEq, Repr

/-- A stored row of the scrap_result table: the JamAI row id plus the
columns the upsert reads and writes (the `grant_scrap` cell may arrive
in any of the shapes `_parse_grant_scrap_cell` handles). -/
structure TableRow where
  rid : String
  grant_scrap : Json
  updated_at : String
  status : String

/-- The scrap_result table. -/
abbrev GrantTable := List TableRow

/-- `_parse_grant_scrap_cell`: normalize a cell into the grant dict —
a dict carrying `grantName` passes through, a `value`-wrapped cell is
unwrapped (strings re-parsed), bare strings are parsed, anything else
becomes `{}`. -/
def parseGrantScrapCell (cell : Json) : Json :=
  match cell with
  | .obj kvs =>
      if Json.hasKey kvs "grantName" then cell
      else
        match Json.lookupKey kvs "value" with
        | some (.str s) =>
            (match Json.loads s with
             | some j => j
             | none => .obj [])
        | some (.obj kvs') => .obj kvs'
        | _ => .obj []
  | .str s =>
      (match Json.loads s with
       | some j => j
       | none => .obj [])
  | _ => .obj []

/-- `grant_data.get("grantName", {}).get("value", "").strip()` — the
name extraction used on both existing rows and incoming entries;
`.get` on a non-dict and `.strip()` on a non-string raise. -/
def extractGrantName (g : Json) : Except PyErr String := do
  let gn ← g.pyGetD "grantName" (.obj [])
  let v ← gn.pyGetD "value" (.str "")
  match v with
  | .str s => pure (pyStrip s)
  | _ => .error .attrError

/-- An existing grant as `get_grants_from_table` reports it (the fields
the upsert uses). -/
structure ExistingGrant where
  id : String
  grant_scrap : Json

/-- `get_grants_from_table`: each row with its parsed payload. -/
def getGrantsFromTable (table : GrantTable) : List ExistingGrant :=
  table.map (fun r => ⟨r.rid, parseGrantScrapCell r.grant_scrap⟩)

/-- The `existing_grant_map` build loop: names are stripped and
lower-cased, empty names skipped, later rows overwrite earlier ones in
the dict. -/
def buildExistingMapGo (acc : List (String × ExistingGrant)) :
    List ExistingGrant → Except PyErr (List (String × ExistingGrant))
  | [] => .ok acc
  | g :: rest => do
      let name ← extractGrantName g.grant_scrap
      if name == "" then buildExistingMapGo acc rest
      else buildExistingMapGo (dictInsert acc (pyLower name) g) rest

/-- The classification the entry loop accumulates: rows to delete,
entries to add, and the replacement count. -/
structure UpsertPlan where
  toDelete : List String
  toAdd : List GrantEntry
  updated : Nat

/-- The `for entry in grant_entries` loop: parse the entry's JSON
(raising on malformed JSON, caught by the outer handler), skip empty
names, and split into replacements (delete old id, add new entry) and
plain additions. -/
def planEntriesGo (emap : List (String × ExistingGrant)) (acc : UpsertPlan) :
    List GrantEntry → Except PyErr UpsertPlan
  | [] => .ok acc
  | e :: rest => do
      let gd ← (match Json.loads e.grant_scrap with
                | some j => Except.ok j
                | none => Except.error PyErr.jsonDecode)
      let name ← extractGrantName gd
      if name == "" then planEntriesGo emap acc rest
      else
        match dictLookup emap (pyLower name) with
        | some ex =>
            planEntriesGo emap
              ⟨acc.toDelete ++ [ex.id], acc.toAdd ++ [e], acc.updated + 1⟩ rest
        | none =>
            planEntriesGo emap ⟨acc.toDelete, acc.toAdd ++ [e], acc.updated⟩ rest

/-- A batch store operation attempted against the table. -/
inductive StoreOp where
  | deleteRows (ids : List String) : StoreOp
  | addRows (entries : List GrantEntry) : StoreOp
deriving DecidableEq, Repr

/-- The dict `add_or_update_grant_entries` returns.  `processedIds` is
`none` on the deletion-failure return, whose dict carries no
`processed_ids` key at all. -/
structure UpsertResult where
  success : Bool
  added : Nat
  updated : Nat
  processedIds : Option (List String)
deriving DecidableEq, Repr

/-- External outcomes of the two batch calls. -/
structure UpsertEnv where
  deleteOk : Bool
  addOk : Bool

/-- The table row created for an added entry.  The model uses the
entry's freshly generated UUID as the stored row id; the `grant_scrap`
column stores the entry's JSON string. -/
def entryToRow (e : GrantEntry) : TableRow :=
  ⟨e.id, .str e.grant_scrap, e.updated_at, e.status⟩

/-- `JamAIBaseClient.add_or_update_grant_entries`: build the
existing-name map, classify the batch, delete the superseded rows in
one batch (aborting with zero counts if that fails), then add all new
and replacement rows in one batch (`_add_new_grants` failure is caught
and reported as zero added).  Any exception while classifying is caught
by the outer handler and returns the failure dict with no operation
attempted.  Returns the result dict, the trace of attempted batch
operations, and the resulting table. -/
def addOrUpdateGrantEntries (table : GrantTable) (entries : List GrantEntry)
    (env : UpsertEnv) : UpsertResult × List StoreOp × GrantTable :=
  match (do
      let emap ← buildExistingMapGo [] (getGrantsFromTable table)
      planEntriesGo emap ⟨[], [], 0⟩ entries : Except PyErr UpsertPlan) with
  | .error _ => (⟨false, 0, 0, some []⟩, [], table)
  | .ok plan =>
      let addPhase : GrantTable → List StoreOp → UpsertResult × List StoreOp × GrantTable :=
        fun table₁ delOps =>
          if plan.toAdd.isEmpty then
            (⟨true, 0, plan.updated, some []⟩, delOps, table₁)
          else if env.addOk then
            (⟨true, plan.toAdd.length, plan.updated, some (plan.toAdd.map (·.id))⟩,
             delOps ++ [.addRows plan.toAdd],
             table₁ ++ plan.toAdd.map entryToRow)
          else
            (⟨true, 0, plan.updated, some []⟩, delOps ++ [.addRows plan.toAdd], table₁)
      if plan.toDelete.isEmpty then
        addPhase table []
      else if env.deleteOk then
        addPhase (table.filter (fun r => !plan.toDelete.contains r.rid))
          [.deleteRows plan.toDelete]
      else
        (⟨false, 0, 0, none⟩, [.deleteRows plan.toDelete], table)

/-- C7: the upsert engine attempts at most one deletion batch followed
by at most one insertion batch, in that order; and when the deletion
batch fails, the stage aborts before any insertion is attempted,
returning `success=false`, `added=0`, `updated=0`, a result dict with no
processed-ids key, and an unchanged table. -/
theorem upsert_deletes_first_abort_on_failure (table : GrantTable)
    (entries : List GrantEntry) (env : UpsertEnv) :
    (∃ dels adds,
      (addOrUpdateGrantEntries table entries env).2.1 =
        (if dels.isEmpty then [] else [StoreOp.deleteRows dels]) ++
        (if adds.isEmpty then [] else [StoreOp.addRows adds])) ∧
    (env.deleteOk = false →
      ∀ ids, StoreOp.deleteRows ids ∈ (addOrUpdateGrantEntries table entries env).2.1 →
        (addOrUpdateGrantEntries table entries env).1 = ⟨false, 0, 0, none⟩ ∧
        (addOrUpdateGrantEntries table entries env).2.1 = [StoreOp.deleteRows ids] ∧
        (addOrUpdateGrantEntries table entries env).2.2 = table) := by
  unfold addOrUpdateGrantEntries
  cases hprep : (do
      let emap ← buildExistingMapGo [] (getGrantsFromTable table)
      planEntriesGo emap ⟨[], [], 0⟩ entries : Except PyErr UpsertPlan) with
  | error e =>
      dsimp only
      refine ⟨⟨[], [], by simp⟩, fun _ ids hmem => ?_⟩
      simp at hmem
  | ok plan =>
      dsimp only
      by_cases hdel : plan.toDelete.isEmpty
      · rw [if_pos hdel]
        by_cases hadd : plan.toAdd.isEmpty
        · simp only [hadd, if_true]
          refine ⟨⟨[], [], by simp⟩, fun _ ids hmem => ?_⟩
          simp at hmem
        · simp only [hadd, Bool.false_eq_true, if_false]
          by_cases haok : env.addOk
          · simp only [haok, if_true]
            refine ⟨⟨[], plan.toAdd, by simp [hadd]⟩, fun _ ids hmem => ?_⟩
            simp at hmem
          · simp only [haok, Bool.false_eq_true, if_false]
            refine ⟨⟨[], plan.toAdd, by simp [hadd]⟩, fun _ ids hmem => ?_⟩
            simp at hmem
      · rw [if_neg hdel]
        by_cases hok : env.deleteOk
        · rw [if_pos hok]
          by_cases hadd : plan.toAdd.isEmpty
          · simp only [hadd, if_true]
            refine ⟨⟨plan.toDelete, [], by simp [hdel]⟩, fun hfal ids hmem => ?_⟩
            rw [hok] at hfal
            cases hfal
          · simp only [hadd, Bool.false_eq_true, if_false]
            by_cases haok : env.addOk
            · simp only [haok, if_true]
              refine ⟨⟨plan.toDelete, plan.toAdd, by simp [hdel, hadd]⟩,
                fun hfal ids hmem => ?_⟩
              rw [hok] at hfal
              cases hfal
            · simp only [haok, Bool.false_eq_true, if_false]
              refine ⟨⟨plan.toDelete, plan.toAdd, by simp [hdel, hadd]⟩,
                fun hfal ids hmem => ?_⟩
              rw [hok] at hfal
              cases hfal
        · rw [if_neg hok]
          refine ⟨⟨plan.toDelete, [], by simp [hdel]⟩, fun _ ids hmem => ?_⟩
          simp only [List.mem_singleton] at hmem
          cases hmem
          exact ⟨rfl, rfl, rfl⟩

/-- One stored row named `"X"` for the upsert scenarios. -/
def c7Row : TableRow :=
  ⟨"r1", .str "\x7b\"grantName\":\x7b\"value\":\"X\",\"sourceUrl\":\"u\"\x7d\x7d", "t0", "active"⟩

/-- A replacement candidate also named `"X"`. -/
def c7Entry : GrantEntry :=
  ⟨"n1", "\x7b\"grantName\":\x7b\"value\":\"X\",\"sourceUrl\":\"u\"\x7d\x7d", "t1", "active"⟩

/-- Witness for `upsert_deletes_first_abort_on_failure`: with the
deletion batch failing, the replacement run aborts after the single
delete attempt, with zero counts and the table unchanged. -/
theorem upsert_deletes_first_abort_on_failure_witness :
    (addOrUpdateGrantEntries [c7Row] [c7Entry] ⟨false, true⟩).1 =
      ⟨false, 0, 0, none⟩ ∧
    (addOrUpdateGrantEntries [c7Row] [c7Entry] ⟨false, true⟩).2.1 =
      [StoreOp.deleteRows ["r1"]] ∧
    (addOrUpdateGrantEntries [c7Row] [c7Entry] ⟨false, true⟩).2.2 = [c7Row] :=
  (upsert_deletes_first_abort_on_failure [c7Row] [c7Entry] ⟨false, true⟩).2
    rfl ["r1"] (by decide)

/-- The normalized (stripped, lower-cased) nonempty grant name of a
stored row, when its payload yields one. -/
def rowKey (r : TableRow) : Option String :=
  match extractGrantName (parseGrantScrapCell r.grant_scrap) with
  | .ok s => if s == "" then none else some (pyLower s)
  | .error _ => none

/-- The normalized nonempty grant name of an incoming entry, when its
JSON parses and yields one. -/
def entryKey (e : GrantEntry) : Option String :=
  match Json.loads e.grant_scrap with
  | some j =>
      match extractGrantName j with
      | .ok s => if s == "" then none else some (pyLower s)
      | .error _ => none
  | none => none

/-- The normalized nonempty name of a listed existing grant. -/
def gkey (g : ExistingGrant) : Option String :=
  match extractGrantName g.grant_scrap with
  | .ok s => if s == "" then none else some (pyLower s)
  | .error _ => none

/-- Whether a row's name extraction runs without raising. -/
def rowNameOk (r : TableRow) : Bool :=
  match extractGrantName (parseGrantScrapCell r.grant_scrap) with
  | .ok _ => true
  | .error _ => false

/-- Whether an entry parses and its name extraction runs without
raising. -/
def entryOk (e : GrantEntry) : Bool :=
  match Json.loads e.grant_scrap with
  | some j =>
      match extractGrantName j with
      | .ok _ => true
      | .error _ => false
  | none => false

/-- The second candidate of the duplicate batch, also named `"X"`. -/
def c6Entry2 : GrantEntry :=
  ⟨"n2", "\x7b\"grantName\":\x7b\"value\":\" x\",\"sourceUrl\":\"u\"\x7d\x7d", "t1", "active"⟩

/-- C6 counterexample: upserting a batch of two candidates that both
normalize to the existing row's name `"x"` deletes the old row but
inserts both candidates, leaving two rows bearing that name — not
exactly one as the claim states for batches with several candidates of
the same normalized name.  (The old row's identifier is indeed gone.) -/
theorem upsert_duplicate_names_counterexample :
    (((addOrUpdateGrantEntries [c7Row] [c7Entry, c6Entry2] ⟨true, true⟩).2.2).filter
        (fun r' => rowKey r' == some "x")).length = 2 ∧
    "r1" ∉ ((addOrUpdateGrantEntries [c7Row] [c7Entry, c6Entry2] ⟨true, true⟩).2.2).map
        TableRow.rid := by
  decide

/-- The existing-name map build succeeds when every listed grant's name extraction runs without raising. -/
theorem buildMap_ok (gs : List ExistingGrant) :
    ∀ (acc : List (String × ExistingGrant)),
      (∀ g ∈ gs, (match extractGrantName g.grant_scrap with
        | .ok _ => true | .error _ => false) = true) →
      ∃ m, buildExistingMapGo acc gs = .ok m := by
  induction gs with
  | nil => intro acc _; exact ⟨acc, rfl⟩
  | cons g rest ih =>
    intro acc hok
    have hg := hok g (List.mem_cons_self _ _)
    cases he : extractGrantName g.grant_scrap with
    | error e => rw [he] at hg; cases hg
    | ok s =>
      unfold buildExistingMapGo
      simp only [he, bind, Except.bind]
      by_cases hs : (s == "") = true
      · rw [if_pos hs]
        exact ih acc (fun g' hg' => hok g' (List.mem_cons_of_mem _ hg'))
      · rw [if_neg hs]
        exact ih _ (fun g' hg' => hok g' (List.mem_cons_of_mem _ hg'))

/-- Soundness of the map build: every binding comes from a listed grant with that normalized name (or was already in the accumulator). -/
theorem buildMap_sound (gs : List ExistingGrant) :
    ∀ (acc : List (String × ExistingGrant)) (m : List (String × ExistingGrant)),
      buildExistingMapGo acc gs = .ok m →
      ∀ k g, dictLookup m k = some g →
        dictLookup acc k = some g ∨ (g ∈ gs ∧ gkey g = some k) := by
  induction gs with
  | nil =>
    intro acc m hok k g hlook
    cases hok
    exact .inl hlook
  | cons g₀ rest ih =>
    intro acc m hok k g hlook
    unfold buildExistingMapGo at hok
    simp only [bind, Except.bind] at hok
    cases he : extractGrantName g₀.grant_scrap with
    | error e => rw [he] at hok; cases hok
    | ok s =>
      rw [he] at hok
      dsimp only at hok
      by_cases hs : (s == "") = true
      · rw [if_pos hs] at hok
        rcases ih acc m hok k g hlook with hacc | ⟨hgin, hgk⟩
        · exact .inl hacc
        · exact .inr ⟨List.mem_cons_of_mem _ hgin, hgk⟩
      · rw [if_neg hs] at hok
        rcases ih _ m hok k g hlook with hacc | ⟨hgin, hgk⟩
        · rw [dictLookup_dictInsert] at hacc
          by_cases hkk : k = pyLower s
          · rw [if_pos hkk] at hacc
            cases hacc
            refine .inr ⟨List.mem_cons_self _ _, ?_⟩
            unfold gkey
            rw [he]
            dsimp only
            rw [if_neg hs, hkk]
          · rw [if_neg hkk] at hacc
            exact .inl hacc
        · exact .inr ⟨List.mem_cons_of_mem _ hgin, hgk⟩

/-- Bindings present in the accumulator survive the rest of the build. -/
theorem buildMap_persists (gs : List ExistingGrant) :
    ∀ (acc m : List (String × ExistingGrant)),
      buildExistingMapGo acc gs = .ok m →
      ∀ k, (dictLookup acc k).isSome = true → (dictLookup m k).isSome = true := by
  induction gs with
  | nil => intro acc m hok k h; cases hok; exact h
  | cons g₀ rest ih =>
    intro acc m hok k h
    unfold buildExistingMapGo at hok
    simp only [bind, Except.bind] at hok
    cases he : extractGrantName g₀.grant_scrap with
    | error e => rw [he] at hok; cases hok
    | ok s =>
      rw [he] at hok
      dsimp only at hok
      by_cases hs : (s == "") = true
      · rw [if_pos hs] at hok
        exact ih acc m hok k h
      · rw [if_neg hs] at hok
        refine ih _ m hok k ?_
        rw [dictLookup_dictInsert]
        by_cases hkk : k = pyLower s
        · rw [if_pos hkk]; rfl
        · rw [if_neg hkk]; exact h

/-- Completeness of the map build: every listed grant with a nonempty normalized name ends up bound. -/
theorem buildMap_complete (gs : List ExistingGrant) :
    ∀ (acc m : List (String × ExistingGrant)),
      buildExistingMapGo acc gs = .ok m →
      ∀ g ∈ gs, ∀ k, gkey g = some k → (dictLookup m k).isSome = true := by
  induction gs with
  | nil => intro acc m hok g hg; cases hg
  | cons g₀ rest ih =>
    intro acc m hok g hg k hk
    unfold buildExistingMapGo at hok
    simp only [bind, Except.bind] at hok
    cases he : extractGrantName g₀.grant_scrap with
    | error e => rw [he] at hok; cases hok
    | ok s =>
      rw [he] at hok
      dsimp only at hok
      rcases List.mem_cons.mp hg with rfl | hg'
      · unfold gkey at hk
        rw [he] at hk
        dsimp only at hk
        by_cases hs : (s == "") = true
        · rw [if_pos hs] at hk; cases hk
        · rw [if_neg hs] at hk
          cases hk
          rw [if_neg hs] at hok
          refine buildMap_persists rest _ m hok _ ?_
          rw [dictLookup_dictInsert, if_pos rfl]
          rfl
      · by_cases hs : (s == "") = true
        · rw [if_pos hs] at hok
          exact ih acc m hok g hg' k hk
        · rw [if_neg hs] at hok
          exact ih _ m hok g hg' k hk

/-- The entry-classification loop succeeds when every entry parses and extracts a name without raising. -/
theorem plan_ok (emap : List (String × ExistingGrant)) (es : List GrantEntry) :
    ∀ acc : UpsertPlan, (∀ e ∈ es, entryOk e = true) →
      ∃ plan, planEntriesGo emap acc es = .ok plan := by
  induction es with
  | nil => intro acc _; exact ⟨acc, rfl⟩
  | cons e rest ih =>
    intro acc hok
    have he := hok e (List.mem_cons_self _ _)
    unfold entryOk at he
    unfold planEntriesGo
    simp only [bind, Except.bind]
    cases hl : Json.loads e.grant_scrap with
    | none => rw [hl] at he; dsimp only at he; cases he
    | some j =>
      rw [hl] at he
      dsimp only at he
      cases hx : extractGrantName j with
      | error er => rw [hx] at he; dsimp only at he; cases he
      | ok s =>
        simp only [hl, hx]
        by_cases hs : (s == "") = true
        · rw [if_pos hs]
          exact ih acc (fun e' he' => hok e' (List.mem_cons_of_mem _ he'))
        · rw [if_neg hs]
          cases dictLookup emap (pyLower s) with
          | some ex => exact ih _ (fun e' he' => hok e' (List.mem_cons_of_mem _ he'))
          | none => exact ih _ (fun e' he' => hok e' (List.mem_cons_of_mem _ he'))

/-- The classification loop adds every named entry and deletes, per matched entry, the id the map holds for its name. -/
theorem plan_char (emap : List (String × ExistingGrant)) (es : List GrantEntry) :
    ∀ (acc plan : UpsertPlan), planEntriesGo emap acc es = .ok plan →
      plan.toAdd = acc.toAdd ++ es.filter (fun e => (entryKey e).isSome) ∧
      plan.toDelete = acc.toDelete ++ es.filterMap (fun e =>
        (entryKey e).bind (fun k => (dictLookup emap k).map (·.id))) := by
  induction es with
  | nil =>
    intro acc plan hok
    cases hok
    exact ⟨by simp, by simp⟩
  | cons e rest ih =>
    intro acc plan hok
    unfold planEntriesGo at hok
    simp only [bind, Except.bind] at hok
    cases hl : Json.loads e.grant_scrap with
    | none => rw [hl] at hok; cases hok
    | some j =>
      rw [hl] at hok
      dsimp only at hok
      cases hx : extractGrantName j with
      | error er => rw [hx] at hok; cases hok
      | ok s =>
        rw [hx] at hok
        dsimp only at hok
        have hkey : entryKey e = if (s == "") = true then none else some (pyLower s) := by
          unfold entryKey
          rw [hl]
          dsimp only
          rw [hx]
        by_cases hs : (s == "") = true
        · rw [if_pos hs] at hok
          rw [if_pos hs] at hkey
          obtain ⟨h1, h2⟩ := ih acc plan hok
          refine ⟨?_, ?_⟩
          · rw [h1, List.filter_cons, hkey]
            simp
          · rw [h2, List.filterMap_cons, hkey]
            simp
        · rw [if_neg hs] at hok
          rw [if_neg hs] at hkey
          cases hm : dictLookup emap (pyLower s) with
          | some ex =>
            rw [hm] at hok
            obtain ⟨h1, h2⟩ := ih _ plan hok
            refine ⟨?_, ?_⟩
            · rw [h1, List.filter_cons, hkey]
              simp
            · rw [h2, List.filterMap_cons, hkey]
              simp [hm]
          | none =>
            rw [hm] at hok
            obtain ⟨h1, h2⟩ := ih _ plan hok
            refine ⟨?_, ?_⟩
            · rw [h1, List.filter_cons, hkey]
              simp
            · rw [h2, List.filterMap_cons, hkey]
              simp [hm]

/-- With both batch calls succeeding, the resulting table is the old table minus the superseded rows plus the added entries. -/
theorem upsert_result_table (table : GrantTable) (entries : List GrantEntry)
    (plan : UpsertPlan)
    (hprep : (do
        let emap ← buildExistingMapGo [] (getGrantsFromTable table)
        planEntriesGo emap ⟨[], [], 0⟩ entries : Except PyErr UpsertPlan) = .ok plan) :
    (addOrUpdateGrantEntries table entries ⟨true, true⟩).2.2 =
      (table.filter (fun r => !plan.toDelete.contains r.rid)) ++
        plan.toAdd.map entryToRow := by
  unfold addOrUpdateGrantEntries
  rw [hprep]
  dsimp only
  by_cases hdel : plan.toDelete.isEmpty
  · rw [if_pos hdel]
    have : table.filter (fun r => !plan.toDelete.contains r.rid) = table := by
      rw [List.isEmpty_iff] at hdel
      rw [hdel]
      simp [List.contains]
    rw [this]
    by_cases hadd : plan.toAdd.isEmpty
    · simp only [hadd, if_true]
      rw [List.isEmpty_iff] at hadd
      rw [hadd]
      simp
    · simp only [hadd, Bool.false_eq_true, if_false, if_true]
  · rw [if_neg hdel]
    simp only [if_true]
    by_cases hadd : plan.toAdd.isEmpty
    · simp only [hadd, if_true]
      rw [List.isEmpty_iff] at hadd
      rw [hadd]
      simp
    · simp only [hadd, Bool.false_eq_true, if_false, if_true]

/-- An added entry's stored row carries the entry's normalized name. -/
theorem rowKey_entryToRow (e : GrantEntry) : rowKey (entryToRow e) = entryKey e := by
  unfold rowKey entryKey entryToRow parseGrantScrapCell
  dsimp only
  cases hl : Json.loads e.grant_scrap with
  | some j => rfl
  | none => rfl

/-- With distinct `filterMap` images, the key function is injective on members. -/
theorem filterMap_nodup_inj {α : Type} (f : α → Option String) :
    ∀ (l : List α), (l.filterMap f).Nodup →
      ∀ a ∈ l, ∀ b ∈ l, ∀ k, f a = some k → f b = some k → a = b := by
  intro l
  induction l with
  | nil => intro _ a ha; cases ha
  | cons x rest ih =>
    intro hnodup a ha b hb k hfa hfb
    have hnr : (rest.filterMap f).Nodup := by
      rw [List.filterMap_cons] at hnodup
      cases hfx : f x with
      | some v => rw [hfx] at hnodup; exact (List.nodup_cons.mp hnodup).2
      | none => rw [hfx] at hnodup; exact hnodup
    have hnotin : ∀ c ∈ rest, f c = some k → f x ≠ some k := by
      intro c hc hfc hfx
      rw [List.filterMap_cons, hfx] at hnodup
      exact (List.nodup_cons.mp hnodup).1 (List.mem_filterMap.mpr ⟨c, hc, hfc⟩)
    rcases List.mem_cons.mp ha with ha0 | ha' <;> rcases List.mem_cons.mp hb with hb0 | hb'
    · rw [ha0, hb0]
    · exact absurd (ha0 ▸ hfa) (hnotin b hb' hfb)
    · exact absurd (hb0 ▸ hfb) (hnotin a ha' hfa)
    · exact ih hnr a ha' b hb' k hfa hfb

/-- With distinct keys, exactly one member carries a given key that is carried at all. -/
theorem filter_key_length_one {α : Type} (f : α → Option String) :
    ∀ (l : List α) (k : String) (a : α), (l.filterMap f).Nodup → a ∈ l →
      f a = some k → (l.filter (fun x => f x == some k)).length = 1 := by
  intro l
  induction l with
  | nil => intro k a _ ha; cases ha
  | cons x rest ih =>
    intro k a hnodup ha hfa
    have hnr : (rest.filterMap f).Nodup := by
      rw [List.filterMap_cons] at hnodup
      cases hfx : f x with
      | some v => rw [hfx] at hnodup; exact (List.nodup_cons.mp hnodup).2
      | none => rw [hfx] at hnodup; exact hnodup
    rw [List.filter_cons]
    by_cases hx : (f x == some k) = true
    · rw [if_pos hx]
      have hfx : f x = some k := by simpa using hx
      have hrestnil : rest.filter (fun y => f y == some k) = [] := by
        rw [List.filter_eq_nil_iff]
        intro c hc hfc
        have hfc' : f c = some k := by simpa using hfc
        rw [List.filterMap_cons, hfx] at hnodup
        exact (List.nodup_cons.mp hnodup).1
          (List.mem_filterMap.mpr ⟨c, hc, hfc'⟩)
      rw [hrestnil]
      rfl
    · rw [if_neg hx]
      rcases List.mem_cons.mp ha with ha0 | ha'
      · exact absurd (by rw [← ha0, hfa]; simp : (f x == some k) = true) hx
      · exact ih k a hnr ha' hfa

/-- C6 (amended): when the store holds at most one row per normalized
grant name, the batch's candidates have pairwise-distinct normalized
names, their ids are fresh, and both batch calls succeed, then for every
candidate whose normalized name matches an existing row the upsert
leaves exactly one row bearing that name and the matched old row's
identifier is gone.  The original claim's extension to batches with
several same-named candidates fails — see the counterexample, where both
duplicates are inserted. -/
theorem upsert_replaces_matched_unique (table : GrantTable) (entries : List GrantEntry)
    (h1 : table.all rowNameOk = true)
    (h2 : (table.filterMap rowKey).Nodup)
    (h3 : (table.map TableRow.rid).Nodup)
    (h4 : entries.all entryOk = true)
    (h5 : (entries.filterMap entryKey).Nodup)
    (h6 : entries.all (fun e => !(table.map TableRow.rid).contains e.id) = true)
    (e : GrantEntry) (he : e ∈ entries) (k : String) (hk : entryKey e = some k)
    (r : TableRow) (hr : r ∈ table) (hrk : rowKey r = some k) :
    (((addOrUpdateGrantEntries table entries ⟨true, true⟩).2.2).filter
        (fun r' => rowKey r' == some k)).length = 1 ∧
    r.rid ∉ ((addOrUpdateGrantEntries table entries ⟨true, true⟩).2.2).map
        TableRow.rid := by
  have hgok : ∀ g ∈ getGrantsFromTable table,
      (match extractGrantName g.grant_scrap with
       | .ok _ => true | .error _ => false) = true := by
    intro g hg
    obtain ⟨r₀, hr₀, hre⟩ := List.mem_map.mp hg
    have hok := List.all_eq_true.mp h1 r₀ hr₀
    unfold rowNameOk at hok
    rw [← hre]
    exact hok
  obtain ⟨emap, hemap⟩ := buildMap_ok (getGrantsFromTable table) [] hgok
  obtain ⟨plan, hplan⟩ := plan_ok emap entries ⟨[], [], 0⟩
    (fun e' he' => List.all_eq_true.mp h4 e' he')
  have hprep : (do
      let m ← buildExistingMapGo [] (getGrantsFromTable table)
      planEntriesGo m ⟨[], [], 0⟩ entries : Except PyErr UpsertPlan) = .ok plan := by
    simp only [bind, Except.bind, hemap, hplan]
  have htab := upsert_result_table table entries plan hprep
  obtain ⟨hAdd, hDel⟩ := plan_char emap entries ⟨[], [], 0⟩ plan hplan
  dsimp only at hAdd hDel
  rw [List.nil_append] at hAdd hDel
  obtain ⟨g, hgl, hgid⟩ : ∃ g, dictLookup emap k = some g ∧ g.id = r.rid := by
    have hrg : (⟨r.rid, parseGrantScrapCell r.grant_scrap⟩ : ExistingGrant) ∈
        getGrantsFromTable table := List.mem_map.mpr ⟨r, hr, rfl⟩
    have hsome := buildMap_complete (getGrantsFromTable table) [] emap hemap _ hrg k
      (by show gkey ⟨r.rid, parseGrantScrapCell r.grant_scrap⟩ = some k; exact hrk)
    cases hl : dictLookup emap k with
    | none => rw [hl] at hsome; cases hsome
    | some g =>
      refine ⟨g, rfl, ?_⟩
      rcases buildMap_sound (getGrantsFromTable table) [] emap hemap k g hl with
        hacc | ⟨hgin, hgk⟩
      · exact absurd hacc (by simp [dictLookup])
      · obtain ⟨r₂, hr₂, hgr⟩ := List.mem_map.mp hgin
        have hr₂k : rowKey r₂ = some k := by
          show gkey ⟨r₂.rid, parseGrantScrapCell r₂.grant_scrap⟩ = some k
          rw [hgr]
          exact hgk
        have hre : r₂ = r := filterMap_nodup_inj rowKey table h2 r₂ hr₂ r hr k hr₂k hrk
        rw [← hgr]
        show r₂.rid = r.rid
        rw [hre]
  have hdelmem : r.rid ∈ plan.toDelete := by
    rw [hDel]
    refine List.mem_filterMap.mpr ⟨e, he, ?_⟩
    rw [hk]
    show (dictLookup emap k).map (fun x => x.id) = some r.rid
    rw [hgl]
    show some g.id = some r.rid
    rw [hgid]
  rw [htab]
  constructor
  · rw [List.filter_append, List.length_append]
    have hpart1 : (table.filter (fun r' => !plan.toDelete.contains r'.rid)).filter
        (fun r' => rowKey r' == some k) = [] := by
      rw [List.filter_eq_nil_iff]
      intro r' hr' hkey'
      have hr'mem := List.mem_filter.mp hr'
      have hr'k : rowKey r' = some k := by simpa using hkey'
      have hre : r' = r := filterMap_nodup_inj rowKey table h2 r' hr'mem.1 r hr k hr'k hrk
      have hcontains : plan.toDelete.contains r'.rid = true := by
        rw [hre]
        exact List.elem_eq_true_of_mem hdelmem
      have := hr'mem.2
      rw [hcontains] at this
      cases this
    rw [hpart1, List.length_nil]
    have hmapfilter : (plan.toAdd.map entryToRow).filter (fun r' => rowKey r' == some k) =
        (plan.toAdd.filter (fun x => entryKey x == some k)).map entryToRow := by
      rw [List.filter_map entryToRow plan.toAdd]
      congr 1
      apply List.filter_congr
      intro x _
      show (rowKey (entryToRow x) == some k) = (entryKey x == some k)
      rw [rowKey_entryToRow]
    rw [hmapfilter, List.length_map, hAdd]
    rw [List.filter_filter]
    have hfeq : entries.filter (fun a => (entryKey a == some k) && (entryKey a).isSome) =
        entries.filter (fun a => entryKey a == some k) := by
      apply List.filter_congr
      intro x _
      cases hx : entryKey x with
      | none => simp
      | some v =>
        by_cases hv : v = k
        · simp [hv]
        · simp [hv]
    rw [hfeq, Nat.zero_add]
    exact filter_key_length_one entryKey entries k e h5 he hk
  · rw [List.map_append]
    intro hmem
    rcases List.mem_append.mp hmem with hm1 | hm2
    · obtain ⟨r'', hr''f, hr''id⟩ := List.mem_map.mp hm1
      have hr''mem := List.mem_filter.mp hr''f
      have hre : r'' = r := List.inj_on_of_nodup_map h3 hr''mem.1 hr hr''id
      have hcontains : plan.toDelete.contains r''.rid = true := by
        rw [hre]
        exact List.elem_eq_true_of_mem hdelmem
      have := hr''mem.2
      rw [hcontains] at this
      cases this
    · rw [List.map_map] at hm2
      obtain ⟨e', he'Add, he'id⟩ := List.mem_map.mp hm2
      have he'mem : e' ∈ entries := by
        rw [hAdd] at he'Add
        exact (List.mem_filter.mp he'Add).1
      have h6' := List.all_eq_true.mp h6 e' he'mem
      have hrid : r.rid ∈ table.map TableRow.rid := List.mem_map.mpr ⟨r, hr, rfl⟩
      have hcon : (table.map TableRow.rid).contains r.rid = true :=
        List.elem_eq_true_of_mem hrid
      have he'id' : e'.id = r.rid := he'id
      rw [he'id', hcon] at h6'
      cases h6'

/-- Witness for `upsert_replaces_matched_unique`: replacing the single
row named `"X"` with one candidate of the same name leaves exactly one
row with that name, and row `r1` is gone. -/
theorem upsert_replaces_matched_unique_witness :
    (((addOrUpdateGrantEntries [c7Row] [c7Entry] ⟨true, true⟩).2.2).filter
        (fun r' => rowKey r' == some "x")).length = 1 ∧
    "r1" ∉ ((addOrUpdateGrantEntries [c7Row] [c7Entry] ⟨true, true⟩).2.2).map
        TableRow.rid := by
  have happ := upsert_replaces_matched_unique [c7Row] [c7Entry]
    (by decide) (by decide) (by decide) (by decide) (by decide) (by decide)
    c7Entry (List.mem_singleton.mpr rfl) "x" (by decide)
    c7Row (List.mem_singleton.mpr rfl) (by decide)
  exact happ

/-! ## Verification Pass — `backend/agents/agent2.py`,
`GrantVerificationAgent`

State is threaded explicitly as `VState` and survives exceptions, as it
does in Python: a raise after a store write leaves the write in place
and the gateway request made.  Computations return
`VState × Except PyErr α`. -/

/-- `GrantVerificationAgent._extract_column_value`: unwrap dict-shaped
cells through `value`, `text`, `description`, `range`, `json`, first
present key wins; `Json.null` is Python `None` (missing column). -/
def extractColumnValue2 (columns : List (String × Json)) (name : String) : Json :=
  let data := (Json.lookupKey columns name).getD .null
  match data with
  | .obj kvs =>
      match Json.lookupKey kvs "value" with
      | some v => v
      | none =>
          match Json.lookupKey kvs "text" with
          | some v => v
          | none =>
              match Json.lookupKey kvs "description" with
              | some v => v
              | none =>
                  match Json.lookupKey kvs "range" with
                  | some v => v
                  | none =>
                      match Json.lookupKey kvs "json" with
                      | some v => v
                      | none => data
  | _ => data

/-- `GrantVerificationAgent._coerce_json`: dicts pass; strings strip,
empty becomes `None`, other strings go through `json.loads` whose
`JSONDecodeError` is NOT caught here — in `run` this call sits above
the per-row `try`, so a malformed `grant_scrap` string escapes the whole
run. -/
def coerceJson2 (value : Json) : Except PyErr Json :=
  match value with
  | .obj _ => .ok value
  | .str s =>
      let stripped := pyStrip s
      if stripped == "" then .ok .null
      else
        match Json.loads stripped with
        | some j => .ok j
        | none => .error .jsonDecode
  | _ => .ok value

/-- A normalized row as `run` sees it (`_normalize_row` output): the id
is `none` when falsy. -/
structure VRow where
  rid : Option String
  columns : List (String × Json)

/-- The scrap_result store as the verification agent sees it. -/
abbrev VStore := List VRow

/-- External environment of one verification run: the outcome of the
n-th OpenAI chat call of the run (by call order; a raising call is an
`OpenAIError` re-raised as `RuntimeError`), and which column updates the
JamAI store accepts.  Deterministic functions model "no external
changes" between runs. -/
structure VerifEnv where
  gwResult : Nat → Except PyErr String
  updateOk : String → String → Bool

/-- Run state: the store, the number of gateway calls made, and the
trace of attempted column updates `(row id, column)`. -/
structure VState where
  store : VStore
  gwCalls : Nat
  attempts : List (String × String)

/-- Sequencing for explicitly-threaded state-with-exceptions. -/
def vbind {α β : Type} (x : VState × Except PyErr α)
    (f : α → VState → VState × Except PyErr β) : VState × Except PyErr β :=
  match x with
  | (st, .ok a) => f a st
  | (st, .error e) => (st, .error e)

/-- `_call_openai_chat`: one gateway request; the response text is
stripped, an `OpenAIError` is re-raised (after the request was made). -/
def callOpenaiChat (env : VerifEnv) (st : VState) : VState × Except PyErr String :=
  let st' := { st with gwCalls := st.gwCalls + 1 }
  match env.gwResult st.gwCalls with
  | .ok content => (st', .ok (pyStrip content))
  | .error e => (st', .error e)

/-- The fixed `unknown` verdict dicts of `_verify_claim`. -/
def unknownVerdict (explanation : String) : Json :=
  .obj [("is_accurate", .str "unknown"), ("explanation", .str explanation),
        ("evidence", .arr [])]

/-- `_verify_claim(claim, url)`: falsy claim or url yields an `unknown`
verdict without any gateway call; otherwise one call, whose response is
parsed as JSON with an `unknown` fallback on parse failure. -/
def verifyClaim (env : VerifEnv) (claim url : Json) (st : VState) :
    VState × Except PyErr Json :=
  if !claim.pyTruthy then (st, .ok (unknownVerdict "missing claim text"))
  else if !url.pyTruthy then (st, .ok (unknownVerdict "missing source URL"))
  else
    vbind (callOpenaiChat env st) fun responseText st' =>
      match Json.loads responseText with
      | some j => (st', .ok j)
      | none => (st', .ok (unknownVerdict "model returned invalid JSON"))

/-- The `for file_info in ...` document loop of `_process_input`: each
file yields one claim verification (the f-string claim is always
truthy); `.get` on a non-dict file raises. -/
def verifyFiles (env : VerifEnv) : List Json → VState → VState × Except PyErr (List Json)
  | [], st => (st, .ok [])
  | f :: rest, st =>
      vbind (match f.pyGet "name" with
             | .ok v => (st, .ok v)
             | .error e => (st, .error e)) fun name st₀ =>
      vbind (match f.pyGet "sourceUrl" with
             | .ok v => (st₀, .ok v)
             | .error e => (st₀, .error e)) fun su st₁ =>
      vbind (verifyClaim env (.str ("Document required: " ++ Json.pyFormat name)) su st₁)
        fun v st₂ =>
      vbind (verifyFiles env rest st₂) fun vs st₃ =>
        (st₃, .ok (v :: vs))

/-- Lift a pure `Except` into the state-threaded form. -/
def vpure {α : Type} (st : VState) (x : Except PyErr α) : VState × Except PyErr α :=
  (st, x)

/-- `_process_input(data)`: verify each recognized field of the scraped
payload, building the verdict dict in insertion order.  `data` is a
dict (checked by `run`).  All `.get` chains and the `files` iteration
raise exactly where Python would. -/
def processInput (env : VerifEnv) (data : Json) (st : VState) :
    VState × Except PyErr Json :=
  vbind (vpure st (data.pyGet "grantName")) fun gn0 st₀ =>
  let gn := Json.pyOr gn0 (.obj [])
  vbind (if gn.pyTruthy then
           vbind (vpure st₀ (gn.pyGet "value")) fun c st' =>
           vbind (vpure st' (gn.pyGet "sourceUrl")) fun u st'' =>
           vbind (verifyClaim env c u st'') fun v stv =>
             (stv, .ok [("grantName", v)])
         else (st₀, .ok [])) fun res1 st₁ =>
  vbind (vpure st₁ (data.pyGet "period")) fun pd0 st₁' =>
  let pd := Json.pyOr pd0 (.obj [])
  vbind (if pd.pyTruthy then
           vbind (vpure st₁' (pd.pyGet "range")) fun c st' =>
           vbind (vpure st' (pd.pyGet "sourceUrl")) fun u st'' =>
           vbind (verifyClaim env c u st'') fun v stv =>
             (stv, .ok (res1 ++ [("period", v)]))
         else (st₁', .ok res1)) fun res2 st₂ =>
  vbind (vpure st₂ (data.pyGet "grantDescription")) fun gd0 st₂' =>
  let gd := Json.pyOr gd0 (.obj [])
  vbind (if gd.pyTruthy then
           vbind (vpure st₂' (gd.pyGet "text")) fun c st' =>
           vbind (vpure st' (gd.pyGet "sourceUrl")) fun u st'' =>
           vbind (verifyClaim env c u st'') fun v stv =>
             (stv, .ok (res2 ++ [("grantDescription", v)]))
         else (st₂', .ok res2)) fun res3 st₃ =>
  vbind (vpure st₃ (data.pyGet "applicationProcess")) fun ap0 st₃' =>
  let ap := Json.pyOr ap0 (.obj [])
  vbind (if ap.pyTruthy then
           vbind (vpure st₃' (ap.pyGet "steps")) fun steps0 st' =>
           let steps := Json.pyOr steps0 (.obj [])
           vbind (if steps.pyTruthy then
                    vbind (vpure st' (steps.pyGet "description")) fun c stg =>
                    vbind (vpure stg (steps.pyGet "sourceUrl")) fun u stg' =>
                    vbind (verifyClaim env c u stg') fun v stv =>
                      (stv, .ok [("steps", v)])
                  else (st', .ok [])) fun appRes1 st'' =>
           vbind (vpure st'' (ap.pyGet "requiredDocuments")) fun rd0 strd =>
           let rd := Json.pyOr rd0 (.obj [])
           vbind (vpure strd (rd.pyGetD "files" (.arr []))) fun files0 stf =>
           let files := Json.pyOr files0 (.arr [])
           vbind (vpure stf (Json.pyIter files)) fun fl stf' =>
           vbind (verifyFiles env fl stf') fun docRes stdr =>
           let appRes2 := if docRes.isEmpty then appRes1
                          else appRes1 ++ [("requiredDocuments", .arr docRes)]
           (stdr, .ok (if appRes2.isEmpty then res3
                       else res3 ++ [("applicationProcess", Json.obj appRes2)]))
         else (st₃', .ok res3)) fun res4 st₄ =>
  vbind (vpure st₄ (data.pyGet "requiredDocuments")) fun rd0 st₄' =>
  vbind (if rd0.pyTruthy && !(dictHasKey res4 "requiredDocuments") then
           vbind (vpure st₄' (rd0.pyGetD "files" (.arr []))) fun files0 stf =>
           let files := Json.pyOr files0 (.arr [])
           vbind (vpure stf (Json.pyIter files)) fun fl stf' =>
           vbind (verifyFiles env fl stf') fun docRes stdr =>
             (stdr, .ok (if docRes.isEmpty then res4
                         else res4 ++ [("requiredDocuments", Json.arr docRes)]))
         else (st₄', .ok res4)) fun res5 st₅ =>
    (st₅, .ok (Json.obj res5))

/-- `_parse_model_output`.  The text is stripped; the exact sentinel
(case-insensitively) is returned as a string; then a direct
`json.loads` is attempted.  When that fails the code calls
`re.search(r"(\x7b(?:[^\x7b\x7d]|(?1))*\x7d)", text)`: the pattern uses
the recursive-subpattern syntax `(?1)`, which CPython's `re` module
does not support, so compiling it raises
`re.error: unknown extension ?1` — the brace-extraction and
quote/trailing-comma repair steps and the final `return text` are
unreachable.  The model reflects this: the branch raises. -/
def parseModelOutput (rawText : String) : Except PyErr Json :=
  let text := pyStrip rawText
  if pyLower text == "failed to verify" then .ok (.str "failed to verify")
  else
    match Json.loads text with
    | some j => .ok j
    | none => .error .reUnknownExtension

/-- `_is_valid_final_payload` — its member checks are identical to
`_validate_exact_structure` of `agent1.py`, embedded above as
`validateExactStructureE`. -/
def isValidFinalPayload (grant : Json) : Bool :=
  validateExactStructure grant

/-- `_produce_final_payload`: one gateway call presenting the original
payload and the verdicts; a schema-valid dict answer is re-serialized,
anything else (the sentinel string, any other string, or an invalid
dict) stores the sentinel.  A parse failure inside `_parse_model_output`
raises (see above). -/
def produceFinalPayload (env : VerifEnv) (original verificationResult : Json)
    (st : VState) : VState × Except PyErr String :=
  vbind (callOpenaiChat env st) fun responseText st' =>
  vbind (vpure st' (parseModelOutput responseText)) fun parsed st'' =>
    if parsed.isDict && isValidFinalPayload parsed then
      (st'', .ok (Json.dumps parsed))
    else if (match parsed with
             | .str s => pyLower (pyStrip s) == "failed to verify"
             | _ => false) then
      (st'', .ok "failed to verify")
    else
      (st'', .ok "failed to verify")

/-- `_update_columns`: one JamAI update request for the given columns of
one row; the attempt is recorded, and on success every store row with
that id gets the string values written. -/
def updateColumns (env : VerifEnv) (rid : String) (data : List (String × String))
    (st : VState) : VState × Except PyErr Unit :=
  let st₁ := { st with attempts := st.attempts ++ data.map (fun p => (rid, p.1)) }
  if data.all (fun p => env.updateOk rid p.1) then
    ({ st₁ with store := st₁.store.map (fun row =>
        if row.rid == some rid then
          { row with columns :=
              data.foldl (fun cols p => Json.objInsert cols p.1 (.str p.2)) row.columns }
        else row) }, .ok ())
  else (st₁, .error .storeError)

/-- Per-row contribution to the run summary. -/
structure VDelta where
  processed : Nat
  updated_verified : Nat
  updated_final : Nat
  skipped : Nat
  failed : Nat
  rowIds : List String
  errors : Nat
deriving DecidableEq, Repr

/-- One iteration of `run`'s row loop.  The id check, the
non-empty-`grant_final` skip, and `_coerce_json` (which can raise out of
the whole run) happen before the `try`; inside it, the claim
verifications, the `grant_verified` update, the final-payload
production and the `grant_final` update run in one exception scope
whose handler marks the row failed. -/
def processRow (env : VerifEnv) (st : VState) (r : VRow) :
    VState × Except PyErr VDelta :=
  match r.rid with
  | none => (st, .ok ⟨0, 0, 0, 1, 0, [], 0⟩)
  | some rid =>
      let grantFinal := extractColumnValue2 r.columns "grant_final"
      if (match grantFinal with
          | .str s => !(pyStrip s == "")
          | _ => false) then
        (st, .ok ⟨0, 0, 0, 1, 0, [rid], 0⟩)
      else
        match coerceJson2 (extractColumnValue2 r.columns "grant_scrap") with
        | .error e => (st, .error e)
        | .ok grantScrap =>
            if !grantScrap.isDict then
              (st, .ok ⟨0, 0, 0, 1, 0, [rid], 1⟩)
            else
              match processInput env grantScrap st with
              | (st₁, .error _) => (st₁, .ok ⟨0, 0, 0, 0, 1, [rid], 1⟩)
              | (st₁, .ok verificationResult) =>
                  match updateColumns env rid
                      [("grant_verified", Json.dumps verificationResult)] st₁ with
                  | (st₂, .error _) => (st₂, .ok ⟨0, 0, 0, 0, 1, [rid], 1⟩)
                  | (st₂, .ok _) =>
                      match produceFinalPayload env grantScrap verificationResult st₂ with
                      | (st₃, .error _) => (st₃, .ok ⟨0, 1, 0, 0, 1, [rid], 1⟩)
                      | (st₃, .ok finalPayload) =>
                          match updateColumns env rid
                              [("grant_final", finalPayload)] st₃ with
                          | (st₄, .error _) => (st₄, .ok ⟨0, 1, 0, 0, 1, [rid], 1⟩)
                          | (st₄, .ok _) => (st₄, .ok ⟨1, 1, 1, 0, 0, [rid], 0⟩)

/-- The run summary (timestamps aside). -/
structure VSummary where
  success : Bool
  processed : Nat
  updated_verified : Nat
  updated_final : Nat
  skipped : Nat
  failed : Nat
  rowIds : List String
  errors : Nat
deriving DecidableEq, Repr

/-- The row loop of `run`: summaries accumulate; an exception outside
the per-row `try` aborts the whole run. -/
def runRows (env : VerifEnv) : List VRow → VState → List VDelta →
    VState × Except PyErr (List VDelta)
  | [], st, acc => (st, .ok acc)
  | r :: rest, st, acc =>
      match processRow env st r with
      | (st', .error e) => (st', .error e)
      | (st', .ok d) => runRows env rest st' (acc ++ [d])

/-- Total a list of row deltas into the summary. -/
def sumDeltas (ds : List VDelta) : VSummary :=
  let p := (ds.map (·.processed)).sum
  let uv := (ds.map (·.updated_verified)).sum
  let uf := (ds.map (·.updated_final)).sum
  let sk := (ds.map (·.skipped)).sum
  let fl := (ds.map (·.failed)).sum
  ⟨fl == 0, p, uv, uf, sk, fl, (ds.map (·.rowIds)).flatten, (ds.map (·.errors)).sum⟩

/-- `GrantVerificationAgent.run` without explicit `row_ids` (the listing
path): fetch the table rows, truncate to the effective limit
(`limit or DEFAULT_LIMIT`, i.e. 20 when `None` or 0), and process each
row.  Credentials are assumed configured (the unconfigured early
returns carry no row processing).  Returns the final state and, unless
an uncaught exception escaped, the summary. -/
def runVerification (env : VerifEnv) (store : VStore) (limit : Option Nat) :
    VState × Except PyErr VSummary :=
  let effLimit := match limit with
    | none => 20
    | some l => if l == 0 then 20 else l
  let rows := store.take effLimit
  match runRows env rows ⟨store, 0, []⟩ [] with
  | (st, .error e) => (st, .error e)
  | (st, .ok ds) => (st, .ok (sumDeltas ds))

/-- Store/attempts invariance of a state-threaded computation: only the
gateway-call counter may change. -/
def framePres {α : Type} (x : VState × Except PyErr α) (st : VState) : Prop :=
  x.1.store = st.store ∧ x.1.attempts = st.attempts

theorem vbind_frame {α β : Type} {x : VState × Except PyErr α}
    {f : α → VState → VState × Except PyErr β} {st : VState}
    (hx : framePres x st) (hf : ∀ a st₂, framePres (f a st₂) st₂) :
    framePres (vbind x f) st := by
  unfold vbind
  cases x with
  | mk st₀ r =>
    cases r with
    | ok a =>
      rcases hx with ⟨h1, h2⟩
      rcases hf a st₀ with ⟨h3, h4⟩
      exact ⟨h3.trans h1, h4.trans h2⟩
    | error e => exact hx

theorem vpure_frame {α : Type} (st : VState) (x : Except PyErr α) :
    framePres (vpure st x) st := ⟨rfl, rfl⟩

theorem callOpenaiChat_frame (env : VerifEnv) (st : VState) :
    framePres (callOpenaiChat env st) st := by
  unfold callOpenaiChat framePres
  cases env.gwResult st.gwCalls <;> exact ⟨rfl, rfl⟩

theorem verifyClaim_frame (env : VerifEnv) (claim url : Json) (st : VState) :
    framePres (verifyClaim env claim url st) st := by
  unfold verifyClaim
  by_cases h1 : (!claim.pyTruthy) = true
  · rw [if_pos h1]; exact ⟨rfl, rfl⟩
  · rw [if_neg h1]
    by_cases h2 : (!url.pyTruthy) = true
    · rw [if_pos h2]; exact ⟨rfl, rfl⟩
    · rw [if_neg h2]
      refine vbind_frame (callOpenaiChat_frame env st) ?_
      intro a st₂
      cases Json.loads a <;> exact ⟨rfl, rfl⟩

theorem verifyFiles_frame (env : VerifEnv) :
    ∀ (files : List Json) (st : VState), framePres (verifyFiles env files st) st := by
  intro files
  induction files with
  | nil => intro st; exact ⟨rfl, rfl⟩
  | cons f rest ih =>
    intro st
    unfold verifyFiles
    refine vbind_frame (by cases f.pyGet "name" <;> exact ⟨rfl, rfl⟩) ?_
    intro name st₀
    refine vbind_frame (by cases f.pyGet "sourceUrl" <;> exact ⟨rfl, rfl⟩) ?_
    intro su st₁
    refine vbind_frame (verifyClaim_frame env _ su st₁) ?_
    intro v st₂
    refine vbind_frame (ih st₂) ?_
    intro vs st₃
    exact ⟨rfl, rfl⟩

theorem processInput_frame (env : VerifEnv) (data : Json) (st : VState) :
    framePres (processInput env data st) st := by
  unfold processInput
  refine vbind_frame (vpure_frame _ _) ?_
  intro gn0 st₀
  refine vbind_frame ?_ ?_
  · split
    · refine vbind_frame (vpure_frame _ _) ?_
      intro c st'
      refine vbind_frame (vpure_frame _ _) ?_
      intro u st''
      refine vbind_frame (verifyClaim_frame env c u st'') ?_
      intro v stv
      exact ⟨rfl, rfl⟩
    · exact ⟨rfl, rfl⟩
  intro res1 st₁
  refine vbind_frame (vpure_frame _ _) ?_
  intro pd0 st₁'
  refine vbind_frame ?_ ?_
  · split
    · refine vbind_frame (vpure_frame _ _) ?_
      intro c st'
      refine vbind_frame (vpure_frame _ _) ?_
      intro u st''
      refine vbind_frame (verifyClaim_frame env c u st'') ?_
      intro v stv
      exact ⟨rfl, rfl⟩
    · exact ⟨rfl, rfl⟩
  intro res2 st₂
  refine vbind_frame (vpure_frame _ _) ?_
  intro gd0 st₂'
  refine vbind_frame ?_ ?_
  · split
    · refine vbind_frame (vpure_frame _ _) ?_
      intro c st'
      refine vbind_frame (vpure_frame _ _) ?_
      intro u st''
      refine vbind_frame (verifyClaim_frame env c u st'') ?_
      intro v stv
      exact ⟨rfl, rfl⟩
    · exact ⟨rfl, rfl⟩
  intro res3 st₃
  refine vbind_frame (vpure_frame _ _) ?_
  intro ap0 st₃'
  refine vbind_frame ?_ ?_
  · split
    · refine vbind_frame (vpure_frame _ _) ?_
      intro steps0 st'
      refine vbind_frame ?_ ?_
      · split
        · refine vbind_frame (vpure_frame _ _) ?_
          intro c stg
          refine vbind_frame (vpure_frame _ _) ?_
          intro u stg'
          refine vbind_frame (verifyClaim_frame env c u stg') ?_
          intro v stv
          exact ⟨rfl, rfl⟩
        · exact ⟨rfl, rfl⟩
      intro appRes1 st''
      refine vbind_frame (vpure_frame _ _) ?_
      intro rd0 strd
      refine vbind_frame (vpure_frame _ _) ?_
      intro files0 stf
      refine vbind_frame (vpure_frame _ _) ?_
      intro fl stf'
      refine vbind_frame (verifyFiles_frame env fl stf') ?_
      intro docRes stdr
      exact ⟨rfl, rfl⟩
    · exact ⟨rfl, rfl⟩
  intro res4 st₄
  refine vbind_frame (vpure_frame _ _) ?_
  intro rd0 st₄'
  refine vbind_frame ?_ ?_
  · split
    · refine vbind_frame (vpure_frame _ _) ?_
      intro files0 stf
      refine vbind_frame (vpure_frame _ _) ?_
      intro fl stf'
      refine vbind_frame (verifyFiles_frame env fl stf') ?_
      intro docRes stdr
      exact ⟨rfl, rfl⟩
    · exact ⟨rfl, rfl⟩
  intro res5 st₅
  exact ⟨rfl, rfl⟩

theorem produceFinalPayload_frame (env : VerifEnv) (original verificationResult : Json)
    (st : VState) :
    framePres (produceFinalPayload env original verificationResult st) st := by
  unfold produceFinalPayload
  refine vbind_frame (callOpenaiChat_frame env st) ?_
  intro a st₂
  refine vbind_frame (vpure_frame _ _) ?_
  intro parsed st₃
  split
  · exact ⟨rfl, rfl⟩
  · split
    · exact ⟨rfl, rfl⟩
    · exact ⟨rfl, rfl⟩

theorem produceFinalPayload_out (env : VerifEnv) (o v : Json) (st st' : VState)
    (fp : String) (h : produceFinalPayload env o v st = (st', .ok fp)) :
    (∃ kvs, fp = Json.dumps (.obj kvs)) ∨ fp = "failed to verify" := by
  unfold produceFinalPayload at h
  unfold vbind at h
  cases hc : callOpenaiChat env st with
  | mk stc rc =>
    rw [hc] at h
    cases rc with
    | error e => cases h
    | ok responseText =>
      dsimp only at h
      unfold vpure at h
      cases hp : parseModelOutput responseText with
      | error e => rw [hp] at h; cases h
      | ok parsed =>
        rw [hp] at h
        dsimp only at h
        split at h
        · rename_i hvalid
          cases h
          cases parsed with
          | obj kvs => exact .inl ⟨kvs, rfl⟩
          | null => simp [Json.isDict] at hvalid
          | bool b => simp [Json.isDict] at hvalid
          | num n => simp [Json.isDict] at hvalid
          | str s => simp [Json.isDict] at hvalid
          | arr xs => simp [Json.isDict] at hvalid
        · split at h
          · cases h; exact .inr rfl
          · cases h; exact .inr rfl

theorem dropWhile_ne_nil_of_mem {p : Char → Bool} {l : List Char} {c : Char}
    (hc : c ∈ l) (hpc : p c = false) : l.dropWhile p ≠ [] := by
  intro hnil
  have := List.dropWhile_eq_nil_iff.mp hnil c hc
  rw [hpc] at this
  cases this

theorem pyStrip_ne_empty_of_head {c : Char} {cs : List Char}
    (hc : isPySpace c = false) : pyStrip ⟨c :: cs⟩ ≠ "" := by
  unfold pyStrip pyStripChars
  intro hcon
  have hdata : (((c :: cs).dropWhile isPySpace).reverse.dropWhile isPySpace).reverse = [] := by
    have := congrArg String.data hcon
    exact this
  rw [List.reverse_eq_nil_iff] at hdata
  have h1 : (c :: cs).dropWhile isPySpace = c :: cs := by
    rw [List.dropWhile_cons_of_neg (by simp [hc])]
  rw [h1] at hdata
  refine dropWhile_ne_nil_of_mem ?_ hc hdata
  rw [List.mem_reverse]
  exact List.mem_cons_self _ _

theorem dumps_obj_strip_ne_empty (kvs : List (String × Json)) :
    pyStrip (Json.dumps (.obj kvs)) ≠ "" := by
  have hdata : (Json.dumps (.obj kvs)).data = '\x7b' :: (Json.dumpsObj kvs ++ "\x7d").data := by
    show ("\x7b" ++ Json.dumpsObj kvs ++ "\x7d").data = _
    rw [String.data_append, String.data_append, ← String.data_append]
    rfl
  have : Json.dumps (.obj kvs) = ⟨'\x7b' :: (Json.dumpsObj kvs ++ "\x7d").data⟩ := by
    cases hd : Json.dumps (.obj kvs) with
    | mk data => rw [hd] at hdata; exact congrArg String.mk hdata
  rw [this]
  exact pyStrip_ne_empty_of_head (by decide)

theorem finalPayload_strip_ne_empty (env : VerifEnv) (o v : Json) (st st' : VState)
    (fp : String) (h : produceFinalPayload env o v st = (st', .ok fp)) :
    pyStrip fp ≠ "" := by
  rcases produceFinalPayload_out env o v st st' fp h with ⟨kvs, rfl⟩ | rfl
  · exact dumps_obj_strip_ne_empty kvs
  · decide

/-- A row the verification loop passes over without any gateway call and
without any store update: missing id, non-empty string `grant_final`, or
a `grant_scrap` cell that coerces to a non-dict. -/
def quietRow (r : VRow) : Prop :=
  r.rid = none ∨
  (∃ s, extractColumnValue2 r.columns "grant_final" = .str s ∧ pyStrip s ≠ "") ∨
  (∃ v, coerceJson2 (extractColumnValue2 r.columns "grant_scrap") = .ok v ∧
    v.isDict = false)

/-- A quiet row leaves the run state untouched and contributes a
failure-free, processed-free delta. -/
theorem processRow_quiet (env : VerifEnv) (st : VState) (r : VRow)
    (h : quietRow r) :
    (processRow env st r).1 = st ∧
    ∃ d, (processRow env st r).2 = .ok d ∧ d.failed = 0 ∧ d.processed = 0 := by
  unfold processRow
  rcases h with hnone | ⟨s, hext, hne⟩ | ⟨v, hco, hnd⟩
  · rw [hnone]
    exact ⟨rfl, _, rfl, rfl, rfl⟩
  · cases hrid : r.rid with
    | none => exact ⟨rfl, _, rfl, rfl, rfl⟩
    | some rid =>
      dsimp only
      rw [hext]
      dsimp only
      have hc : (!(pyStrip s == "")) = true := by
        cases hq : pyStrip s == ""
        · rfl
        · exact absurd (by simpa using hq) hne
      rw [if_pos hc]
      exact ⟨rfl, _, rfl, rfl, rfl⟩
  · cases hrid : r.rid with
    | none => exact ⟨rfl, _, rfl, rfl, rfl⟩
    | some rid =>
      dsimp only
      by_cases hfin : (match extractColumnValue2 r.columns "grant_final" with
          | Json.str s => !(pyStrip s == "")
          | _ => false) = true
      · rw [if_pos hfin]
        exact ⟨rfl, _, rfl, rfl, rfl⟩
      · rw [if_neg hfin, hco]
        dsimp only
        have hc : (!v.isDict) = true := by rw [hnd]; rfl
        rw [if_pos hc]
        exact ⟨rfl, _, rfl, rfl, rfl⟩

/-- A loop over quiet rows only leaves the state untouched. -/
theorem runRows_quiet (env : VerifEnv) :
    ∀ (rows : List VRow) (st : VState) (acc : List VDelta),
      (∀ r ∈ rows, quietRow r) →
      (runRows env rows st acc).1 = st ∧
      ∃ ds, (runRows env rows st acc).2 = .ok ds ∧
        ∀ d ∈ ds, d ∈ acc ∨ (d.failed = 0 ∧ d.processed = 0) := by
  intro rows
  induction rows with
  | nil =>
    intro st acc _
    exact ⟨rfl, acc, rfl, fun d hd => .inl hd⟩
  | cons r rest ih =>
    intro st acc hq
    obtain ⟨hst, d, hd, hdf, hdp⟩ := processRow_quiet env st r (hq r (List.mem_cons_self _ _))
    unfold runRows
    cases hpr : processRow env st r with
    | mk st' res =>
      rw [hpr] at hst hd
      dsimp only at hst hd
      subst hst
      cases res with
      | error e => cases hd
      | ok d' =>
        cases hd
        obtain ⟨hst2, ds, hds, hmem⟩ := ih st' (acc ++ [d])
          (fun r' hr' => hq r' (List.mem_cons_of_mem _ hr'))
        refine ⟨hst2, ds, hds, fun d₀ hd₀ => ?_⟩
        rcases hmem d₀ hd₀ with hin | hgood
        · rcases List.mem_append.mp hin with hin' | hin'
          · exact .inl hin'
          · rw [List.mem_singleton] at hin'
            subst hin'
            exact .inr ⟨hdf, hdp⟩
        · exact .inr hgood

/-- The per-row transform a successful `_update_columns` call applies to
every store row: rows with the matching id receive the written columns. -/
def updTrans (rid : String) (data : List (String × String)) (row : VRow) : VRow :=
  if row.rid == some rid then
    { row with columns :=
        data.foldl (fun cols p => Json.objInsert cols p.1 (.str p.2)) row.columns }
  else row

theorem updTrans_rid (rid : String) (data : List (String × String)) (row : VRow) :
    (updTrans rid data row).rid = row.rid := by
  unfold updTrans
  split <;> rfl

theorem updateColumns_ok_store {env : VerifEnv} {rid : String}
    {data : List (String × String)} {st st' : VState} {u : Unit}
    (h : updateColumns env rid data st = (st', .ok u)) :
    st'.store = st.store.map (updTrans rid data) := by
  unfold updateColumns at h
  split at h
  · cases h
    rfl
  · simp at h

theorem updateColumns_err_store {env : VerifEnv} {rid : String}
    {data : List (String × String)} {st st' : VState} {e : PyErr}
    (h : updateColumns env rid data st = (st', .error e)) :
    st'.store = st.store := by
  unfold updateColumns at h
  split at h
  · simp at h
  · cases h
    rfl

theorem updateColumns_err_attempts {env : VerifEnv} {rid : String}
    {data : List (String × String)} {st st' : VState} {e : PyErr}
    (h : updateColumns env rid data st = (st', .error e)) :
    st'.attempts = st.attempts ++ data.map (fun p => (rid, p.1)) := by
  unfold updateColumns at h
  split at h
  · simp at h
  · cases h
    rfl

theorem updateColumns_ok_attempts {env : VerifEnv} {rid : String}
    {data : List (String × String)} {st st' : VState} {u : Unit}
    (h : updateColumns env rid data st = (st', .ok u)) :
    st'.attempts = st.attempts ++ data.map (fun p => (rid, p.1)) := by
  unfold updateColumns at h
  split at h
  · cases h
    rfl
  · simp at h

theorem updateColumns_fails_of_not_ok {env : VerifEnv} {rid c : String}
    {v : String} {st : VState}
    (hok : env.updateOk rid c = false) :
    (updateColumns env rid [(c, v)] st).2 = .error .storeError := by
  unfold updateColumns
  have : ([(c, v)].all (fun p => env.updateOk rid p.1)) = false := by
    simp [List.all, hok]
  rw [if_neg (by simp [this])]

theorem extractColumnValue2_objInsert_ne (cols : List (String × Json))
    (k name : String) (v : Json) (h : name ≠ k) :
    extractColumnValue2 (Json.objInsert cols k v) name =
      extractColumnValue2 cols name := by
  unfold extractColumnValue2 Json.lookupKey Json.objInsert
  rw [dictLookup_dictInsert, if_neg h]

theorem extractColumnValue2_objInsert_str (cols : List (String × Json))
    (k : String) (s : String) :
    extractColumnValue2 (Json.objInsert cols k (.str s)) k = .str s := by
  unfold extractColumnValue2 Json.lookupKey Json.objInsert
  rw [dictLookup_dictInsert, if_pos rfl]
  rfl

theorem quietRow_updTrans_other (rid k : String) (v : String) (r : VRow)
    (h1 : "grant_final" ≠ k) (h2 : "grant_scrap" ≠ k)
    (hq : quietRow r) : quietRow (updTrans rid [(k, v)] r) := by
  unfold updTrans
  split
  · rcases hq with h0 | ⟨s, hs, hne⟩ | ⟨w, hw, hnd⟩
    · exact .inl h0
    · refine .inr (.inl ⟨s, ?_, hne⟩)
      show extractColumnValue2 (Json.objInsert r.columns k (.str v)) "grant_final"
        = Json.str s
      rw [extractColumnValue2_objInsert_ne _ _ _ _ h1]
      exact hs
    · refine .inr (.inr ⟨w, ?_, hnd⟩)
      show coerceJson2 (extractColumnValue2 (Json.objInsert r.columns k (.str v))
        "grant_scrap") = Except.ok w
      rw [extractColumnValue2_objInsert_ne _ _ _ _ h2]
      exact hw
  · exact hq

theorem quietRow_updTrans_final_matched (rid fp : String) (r : VRow)
    (hr : r.rid = some rid) (hfp : pyStrip fp ≠ "") :
    quietRow (updTrans rid [("grant_final", fp)] r) := by
  unfold updTrans
  rw [if_pos (by rw [hr]; simp)]
  refine .inr (.inl ⟨fp, ?_, hfp⟩)
  show extractColumnValue2 (Json.objInsert r.columns "grant_final" (.str fp))
    "grant_final" = Json.str fp
  exact extractColumnValue2_objInsert_str r.columns "grant_final" fp

theorem quietRow_updTrans_final_pres (rid fp : String) (r : VRow)
    (hfp : pyStrip fp ≠ "") (hq : quietRow r) :
    quietRow (updTrans rid [("grant_final", fp)] r) := by
  by_cases hm : (r.rid == some rid) = true
  · exact quietRow_updTrans_final_matched rid fp r (by simpa using hm) hfp
  · unfold updTrans
    rw [if_neg hm]
    exact hq

/-- How one iteration of the row loop changes the store: by a per-row
transform that preserves row ids and quietness; and a row whose delta
reports no failure was either quiet, or got a non-empty `grant_final`
written for its id (which makes any row with that id quiet). -/
theorem processRow_cases (env : VerifEnv) (st : VState) (r : VRow)
    {st' : VState} {d : VDelta}
    (h : processRow env st r = (st', .ok d)) :
    ∃ T : VRow → VRow,
      st'.store = st.store.map T ∧
      (∀ x, (T x).rid = x.rid) ∧
      (∀ x, quietRow x → quietRow (T x)) ∧
      (d.failed = 0 →
        quietRow r ∨ ∀ x, x.rid = r.rid → quietRow (T x)) := by
  unfold processRow at h
  cases hrid : r.rid with
  | none =>
      rw [hrid] at h
      dsimp only at h
      injection h with h1 h2
      injection h2 with h2
      subst h1
      subst h2
      exact ⟨id, (List.map_id _).symm, fun _ => rfl, fun _ hq => hq,
        fun _ => .inl (.inl hrid)⟩
  | some rid =>
      rw [hrid] at h
      dsimp only at h
      by_cases hfin : (match extractColumnValue2 r.columns "grant_final" with
          | Json.str s => !(pyStrip s == "")
          | _ => false) = true
      · rw [if_pos hfin] at h
        injection h with h1 h2
        injection h2 with h2
        subst h1
        subst h2
        refine ⟨id, (List.map_id _).symm, fun _ => rfl, fun _ hq => hq,
          fun _ => .inl ?_⟩
        cases hext : extractColumnValue2 r.columns "grant_final" with
        | str s =>
            rw [hext] at hfin
            dsimp only at hfin
            refine .inr (.inl ⟨s, hext, fun hc => ?_⟩)
            rw [hc] at hfin
            exact absurd hfin (by decide)
        | null => rw [hext] at hfin; dsimp only at hfin; exact Bool.noConfusion hfin
        | bool b => rw [hext] at hfin; dsimp only at hfin; exact Bool.noConfusion hfin
        | num n => rw [hext] at hfin; dsimp only at hfin; exact Bool.noConfusion hfin
        | arr xs => rw [hext] at hfin; dsimp only at hfin; exact Bool.noConfusion hfin
        | obj kvs => rw [hext] at hfin; dsimp only at hfin; exact Bool.noConfusion hfin
      · rw [if_neg hfin] at h
        cases hco : coerceJson2 (extractColumnValue2 r.columns "grant_scrap") with
        | error e =>
            rw [hco] at h
            dsimp only at h
            exact absurd (congrArg Prod.snd h) (by simp)
        | ok grantScrap =>
            rw [hco] at h
            dsimp only at h
            by_cases hdict : (!grantScrap.isDict) = true
            · rw [if_pos hdict] at h
              injection h with h1 h2
              injection h2 with h2
              subst h1
              subst h2
              exact ⟨id, (List.map_id _).symm, fun _ => rfl, fun _ hq => hq,
                fun _ => .inl (.inr (.inr ⟨grantScrap, hco, by simpa using hdict⟩))⟩
            · rw [if_neg hdict] at h
              cases hpi : processInput env grantScrap st with
              | mk st₁ res₁ =>
                  rw [hpi] at h
                  cases res₁ with
                  | error e1 =>
                      dsimp only at h
                      injection h with h1 h2
                      injection h2 with h2
                      subst h1
                      subst h2
                      have hfr := (processInput_frame env grantScrap st).1
                      rw [hpi] at hfr
                      refine ⟨id, ?_, fun _ => rfl, fun _ hq => hq,
                        fun h0 => absurd h0 one_ne_zero⟩
                      rw [List.map_id]
                      exact hfr
                  | ok vr =>
                      dsimp only at h
                      cases hgv : updateColumns env rid
                          [("grant_verified", Json.dumps vr)] st₁ with
                      | mk st₂ res₂ =>
                          rw [hgv] at h
                          cases res₂ with
                          | error e2 =>
                              dsimp only at h
                              injection h with h1 h2
                              injection h2 with h2
                              subst h1
                              subst h2
                              have hes := updateColumns_err_store hgv
                              have hfr := (processInput_frame env grantScrap st).1
                              rw [hpi] at hfr
                              refine ⟨id, ?_, fun _ => rfl, fun _ hq => hq,
                                fun h0 => absurd h0 one_ne_zero⟩
                              rw [List.map_id]
                              exact hes.trans hfr
                          | ok u2 =>
                              dsimp only at h
                              cases hpf : produceFinalPayload env grantScrap vr st₂ with
                              | mk st₃ res₃ =>
                                  rw [hpf] at h
                                  cases res₃ with
                                  | error e3 =>
                                      dsimp only at h
                                      injection h with h1 h2
                                      injection h2 with h2
                                      subst h1
                                      subst h2
                                      refine ⟨updTrans rid
                                          [("grant_verified", Json.dumps vr)],
                                        ?_, updTrans_rid rid _, ?_,
                                        fun h0 => absurd h0 one_ne_zero⟩
                                      · have h3 := (produceFinalPayload_frame env
                                          grantScrap vr st₂).1
                                        rw [hpf] at h3
                                        have h2s := updateColumns_ok_store hgv
                                        have hfr := (processInput_frame env grantScrap st).1
                                        rw [hpi] at hfr
                                        dsimp only at h3 hfr
                                        rw [h3, h2s, hfr]
                                      · intro x hq
                                        exact quietRow_updTrans_other rid _ _ x
                                          (by decide) (by decide) hq
                                  | ok fp =>
                                      dsimp only at h
                                      cases hgf : updateColumns env rid
                                          [("grant_final", fp)] st₃ with
                                      | mk st₄ res₄ =>
                                          rw [hgf] at h
                                          cases res₄ with
                                          | error e4 =>
                                              dsimp only at h
                                              injection h with h1 h2
                                              injection h2 with h2
                                              subst h1
                                              subst h2
                                              refine ⟨updTrans rid
                                                  [("grant_verified", Json.dumps vr)],
                                                ?_, updTrans_rid rid _, ?_,
                                                fun h0 => absurd h0 one_ne_zero⟩
                                              · have h4 := updateColumns_err_store hgf
                                                have h3 := (produceFinalPayload_frame env
                                                  grantScrap vr st₂).1
                                                rw [hpf] at h3
                                                have h2s := updateColumns_ok_store hgv
                                                have hfr := (processInput_frame env
                                                  grantScrap st).1
                                                rw [hpi] at hfr
                                                dsimp only at h3 hfr
                                                rw [h4, h3, h2s, hfr]
                                              · intro x hq
                                                exact quietRow_updTrans_other rid _ _ x
                                                  (by decide) (by decide) hq
                                          | ok u4 =>
                                              dsimp only at h
                                              injection h with h1 h2
                                              injection h2 with h2
                                              subst h1
                                              subst h2
                                              have hfp := finalPayload_strip_ne_empty env
                                                grantScrap vr st₂ st₃ fp hpf
                                              refine ⟨fun x => updTrans rid
                                                  [("grant_final", fp)]
                                                  (updTrans rid
                                                    [("grant_verified", Json.dumps vr)] x),
                                                ?_, ?_, ?_, ?_⟩
                                              · have h4 := updateColumns_ok_store hgf
                                                have h3 := (produceFinalPayload_frame env
                                                  grantScrap vr st₂).1
                                                rw [hpf] at h3
                                                have h2s := updateColumns_ok_store hgv
                                                have hfr := (processInput_frame env
                                                  grantScrap st).1
                                                rw [hpi] at hfr
                                                dsimp only at h3 hfr
                                                rw [h4, h3, h2s, hfr, List.map_map]
                                                rfl
                                              · intro x
                                                rw [updTrans_rid, updTrans_rid]
                                              · intro x hq
                                                exact quietRow_updTrans_final_pres rid fp _
                                                  hfp
                                                  (quietRow_updTrans_other rid _ _ x
                                                    (by decide) (by decide) hq)
                                              · intro _
                                                refine .inr (fun x hx => ?_)
                                                refine quietRow_updTrans_final_matched rid
                                                  fp _ ?_ hfp
                                                rw [updTrans_rid]
                                                exact hx

/-- The whole row loop changes the store by an id- and
quietness-preserving transform, and when no delta reports a failure every
selected row is quiet or its id-matched rows become quiet under the
transform. -/
theorem runRows_transform (env : VerifEnv) :
    ∀ (rows : List VRow) (st : VState) (acc : List VDelta)
      {st' : VState} {ds : List VDelta},
      runRows env rows st acc = (st', .ok ds) →
      ∃ (T : VRow → VRow) (nds : List VDelta),
        ds = acc ++ nds ∧
        st'.store = st.store.map T ∧
        (∀ x, (T x).rid = x.rid) ∧
        (∀ x, quietRow x → quietRow (T x)) ∧
        ((∀ d ∈ nds, d.failed = 0) →
          ∀ r ∈ rows, quietRow r ∨ ∀ x, x.rid = r.rid → quietRow (T x)) := by
  intro rows
  induction rows with
  | nil =>
      intro st acc st' ds h
      unfold runRows at h
      injection h with h1 h2
      injection h2 with h2
      subst h1
      subst h2
      exact ⟨id, [], (List.append_nil acc).symm, (List.map_id _).symm,
        fun _ => rfl, fun _ hq => hq, fun _ r hr => absurd hr (List.not_mem_nil r)⟩
  | cons r rest ih =>
      intro st acc st' ds h
      unfold runRows at h
      cases hpr : processRow env st r with
      | mk st₀ res₀ =>
          rw [hpr] at h
          cases res₀ with
          | error e =>
              dsimp only at h
              exact absurd (congrArg Prod.snd h) (by simp)
          | ok d =>
              dsimp only at h
              obtain ⟨T0, hmap0, hrid0, hq0, hcase0⟩ := processRow_cases env st r hpr
              obtain ⟨T', nds', hds, hmap', hrid', hq', hrows'⟩ := ih st₀ (acc ++ [d]) h
              refine ⟨fun x => T' (T0 x), d :: nds', ?_, ?_, ?_, ?_, ?_⟩
              · rw [hds, List.append_assoc]
                rfl
              · rw [hmap', hmap0, List.map_map]
                rfl
              · intro x
                exact (hrid' (T0 x)).trans (hrid0 x)
              · intro x hq
                exact hq' _ (hq0 x hq)
              · intro hall r' hr'
                rcases List.mem_cons.mp hr' with hrr | hmem
                · subst hrr
                  rcases hcase0 (hall d (List.mem_cons_self _ _)) with hquiet | hcr
                  · exact .inl hquiet
                  · exact .inr (fun x hx => hq' _ (hcr x hx))
                · rcases hrows' (fun d' hd' => hall d' (List.mem_cons_of_mem _ hd'))
                    r' hmem with hquiet | hcr
                  · exact .inl hquiet
                  · exact .inr (fun x hx => hcr (T0 x) ((hrid0 x).trans hx))

/-- The effective row limit of a verification run: `limit or DEFAULT_LIMIT`. -/
def verifEffLimit (limit : Option Nat) : Nat :=
  match limit with
  | none => 20
  | some l => if l == 0 then 20 else l

/-- `run` unfolded through the effective limit. -/
theorem runVerification_eq (env : VerifEnv) (store : VStore) (limit : Option Nat) :
    runVerification env store limit =
      match runRows env (store.take (verifEffLimit limit)) ⟨store, 0, []⟩ [] with
      | (st, .error e) => (st, .error e)
      | (st, .ok ds) => (st, .ok (sumDeltas ds)) := rfl

def c3wEnv : VerifEnv := ⟨fun _ => .ok "failed to verify", fun _ _ => true⟩

def c3wRow : VRow := ⟨some "w1", [("grant_final", .str "done")]⟩

/-- C3: a row whose `grant_final` column already holds a non-empty
string value is counted as skipped with no gateway request and no store
update for it (the run state is returned unchanged); and after a
verification run that completed with `failed = 0`, running verification
again on the resulting store with no external changes makes zero
additional gateway calls (and attempts no store update).  The `failed =
0` proviso is required: `verification_rerun_counterexample` shows a
completed first run (a row failed, `grant_final` never written) whose
second pass calls the gateway again. -/
theorem verification_skip_and_idempotent
    (env : VerifEnv) (st : VState) (r : VRow) (s : String)
    (store : VStore) (limit : Option Nat) (st₁ : VState) (summary : VSummary)
    (hr : extractColumnValue2 r.columns "grant_final" = .str s)
    (hs : pyStrip s ≠ "")
    (hrun : runVerification env store limit = (st₁, .ok summary))
    (hfail : summary.failed = 0) :
    (processRow env st r).1 = st ∧
    (∃ d, (processRow env st r).2 = .ok d ∧ d.skipped = 1 ∧ d.processed = 0 ∧
      d.failed = 0) ∧
    (runVerification env st₁.store limit).1.gwCalls = 0 ∧
    (runVerification env st₁.store limit).1.attempts = [] := by
  have hpart1 : (processRow env st r).1 = st ∧
      ∃ d, (processRow env st r).2 = .ok d ∧ d.skipped = 1 ∧ d.processed = 0 ∧
        d.failed = 0 := by
    unfold processRow
    cases hrid : r.rid with
    | none => exact ⟨rfl, _, rfl, rfl, rfl, rfl⟩
    | some rid =>
        dsimp only
        rw [hr]
        dsimp only
        have hc : (!(pyStrip s == "")) = true := by
          cases hq : pyStrip s == ""
          · rfl
          · exact absurd (by simpa using hq) hs
        rw [if_pos hc]
        exact ⟨rfl, _, rfl, rfl, rfl, rfl⟩
  rw [runVerification_eq] at hrun
  cases hrr : runRows env (store.take (verifEffLimit limit)) ⟨store, 0, []⟩ [] with
  | mk stR res =>
      rw [hrr] at hrun
      cases res with
      | error e =>
          dsimp only at hrun
          exact absurd (congrArg Prod.snd hrun) (by simp)
      | ok ds =>
          dsimp only at hrun
          injection hrun with h1 h2
          injection h2 with h2
          subst h1
          subst h2
          have hsum : (ds.map (fun d => d.failed)).sum = 0 := hfail
          have hfail' : ∀ d ∈ ds, d.failed = 0 := fun d hd =>
            List.sum_eq_zero_iff.mp hsum _ (List.mem_map_of_mem _ hd)
          obtain ⟨T, nds, hds, hmap, hridT, hqT, hrowsT⟩ :=
            runRows_transform env _ _ _ hrr
          rw [List.nil_append] at hds
          subst hds
          have hquietAll : ∀ r₂ ∈ stR.store.take (verifEffLimit limit),
              quietRow r₂ := by
            intro r₂ hr₂
            rw [hmap, ← List.map_take] at hr₂
            obtain ⟨r₀, hr₀, hr₀e⟩ := List.mem_map.mp hr₂
            subst hr₀e
            rcases hrowsT hfail' r₀ hr₀ with hq | hcr
            · exact hqT r₀ hq
            · exact hcr r₀ rfl
          have hsnd : (runVerification env stR.store limit).1 =
              ⟨stR.store, 0, []⟩ := by
            rw [runVerification_eq]
            cases hrr2 : runRows env (stR.store.take (verifEffLimit limit))
                ⟨stR.store, 0, []⟩ [] with
            | mk st₂ res₂ =>
                have hq2 := (runRows_quiet env
                  (stR.store.take (verifEffLimit limit))
                  ⟨stR.store, 0, []⟩ [] hquietAll).1
                rw [hrr2] at hq2
                dsimp only at hq2
                cases res₂ with
                | error e => exact hq2
                | ok ds₂ => exact hq2
          exact ⟨hpart1.1, hpart1.2, by rw [hsnd], by rw [hsnd]⟩

/-- Witness for C3 on a one-row store whose `grant_final` is "done". -/
theorem verification_skip_and_idempotent_witness :
    (processRow c3wEnv ⟨[c3wRow], 0, []⟩ c3wRow).1 = ⟨[c3wRow], 0, []⟩ ∧
    (∃ d, (processRow c3wEnv ⟨[c3wRow], 0, []⟩ c3wRow).2 = .ok d ∧
      d.skipped = 1 ∧ d.processed = 0 ∧ d.failed = 0) ∧
    (runVerification c3wEnv [c3wRow] none).1.gwCalls = 0 ∧
    (runVerification c3wEnv [c3wRow] none).1.attempts = [] :=
  verification_skip_and_idempotent c3wEnv ⟨[c3wRow], 0, []⟩ c3wRow "done"
    [c3wRow] none ⟨[c3wRow], 0, []⟩ ⟨true, 0, 0, 0, 1, 0, ["w1"], 0⟩
    rfl (by decide) rfl rfl

def c3Env : VerifEnv :=
  ⟨fun _ => .ok "Here is the corrected JSON you asked for", fun _ _ => true⟩

def c3Row : VRow := ⟨some "r1", [("grant_scrap", .obj [])]⟩

/-- C3 counterexample to the unconditional two-pass claim: the model
answers prose, `_parse_model_output` raises inside
`_produce_final_payload`, the row is marked failed and `grant_final`
stays empty, so a second run re-issues a gateway call (1 call, not 0). -/
theorem verification_rerun_counterexample :
    (runVerification c3Env [c3Row] none).2 =
      .ok ⟨false, 0, 1, 0, 0, 1, ["r1"], 1⟩ ∧
    (runVerification c3Env [c3Row] none).1.gwCalls = 1 ∧
    (runVerification c3Env
        ((runVerification c3Env [c3Row] none).1.store) none).1.gwCalls = 1 :=
  ⟨rfl, rfl, rfl⟩

/-- C2 (amended): the verification pass writes `grant_verified` and
`grant_final` back as two separate single-column update calls, in that
order (the attempts trace extends by nothing, by the `grant_verified`
attempt, or by both in order); but both calls share one `try` scope, so
when the store refuses the `grant_verified` update the `grant_final`
update is NOT attempted and the row is marked failed — contrary to the
original claim. -/
theorem verify_two_separate_updates
    (env : VerifEnv) (st : VState) (r : VRow) {st' : VState} {d : VDelta}
    (h : processRow env st r = (st', .ok d)) :
    (st'.attempts = st.attempts ∨
     (∃ rid, r.rid = some rid ∧
       (st'.attempts = st.attempts ++ [(rid, "grant_verified")] ∨
        st'.attempts = st.attempts ++
          [(rid, "grant_verified"), (rid, "grant_final")]))) ∧
    (∀ rid, r.rid = some rid → env.updateOk rid "grant_verified" = false →
      (st'.attempts = st.attempts ∨
        (st'.attempts = st.attempts ++ [(rid, "grant_verified")] ∧
          d.failed = 1))) := by
  unfold processRow at h
  cases hrid : r.rid with
  | none =>
      rw [hrid] at h
      dsimp only at h
      injection h with h1 h2
      injection h2 with h2
      subst h1
      subst h2
      exact ⟨.inl rfl, fun rid hr _ => Option.noConfusion hr⟩
  | some rid0 =>
      rw [hrid] at h
      dsimp only at h
      by_cases hfin : (match extractColumnValue2 r.columns "grant_final" with
          | Json.str s => !(pyStrip s == "")
          | _ => false) = true
      · rw [if_pos hfin] at h
        injection h with h1 h2
        injection h2 with h2
        subst h1
        subst h2
        exact ⟨.inl rfl, fun _ _ _ => .inl rfl⟩
      · rw [if_neg hfin] at h
        cases hco : coerceJson2 (extractColumnValue2 r.columns "grant_scrap") with
        | error e =>
            rw [hco] at h
            dsimp only at h
            exact absurd (congrArg Prod.snd h) (by simp)
        | ok grantScrap =>
            rw [hco] at h
            dsimp only at h
            by_cases hdict : (!grantScrap.isDict) = true
            · rw [if_pos hdict] at h
              injection h with h1 h2
              injection h2 with h2
              subst h1
              subst h2
              exact ⟨.inl rfl, fun _ _ _ => .inl rfl⟩
            · rw [if_neg hdict] at h
              cases hpi : processInput env grantScrap st with
              | mk st₁ res₁ =>
                  rw [hpi] at h
                  have hat1 := (processInput_frame env grantScrap st).2
                  rw [hpi] at hat1
                  dsimp only at hat1
                  cases res₁ with
                  | error e1 =>
                      dsimp only at h
                      injection h with h1 h2
                      injection h2 with h2
                      subst h1
                      subst h2
                      exact ⟨.inl hat1, fun _ _ _ => .inl hat1⟩
                  | ok vr =>
                      dsimp only at h
                      cases hgv : updateColumns env rid0
                          [("grant_verified", Json.dumps vr)] st₁ with
                      | mk st₂ res₂ =>
                          rw [hgv] at h
                          cases res₂ with
                          | error e2 =>
                              dsimp only at h
                              injection h with h1 h2
                              injection h2 with h2
                              subst h1
                              subst h2
                              have hat2 := updateColumns_err_attempts hgv
                              refine ⟨.inr ⟨rid0, rfl, .inl ?_⟩,
                                fun rid hr hupd => ?_⟩
                              · rw [hat2, hat1]
                                rfl
                              · injection hr with hre
                                subst hre
                                refine .inr ⟨?_, rfl⟩
                                rw [hat2, hat1]
                                rfl
                          | ok u2 =>
                              dsimp only at h
                              have hat2 := updateColumns_ok_attempts hgv
                              cases hpf : produceFinalPayload env grantScrap vr st₂ with
                              | mk st₃ res₃ =>
                                  rw [hpf] at h
                                  have hat3 := (produceFinalPayload_frame env
                                    grantScrap vr st₂).2
                                  rw [hpf] at hat3
                                  dsimp only at hat3
                                  cases res₃ with
                                  | error e3 =>
                                      dsimp only at h
                                      injection h with h1 h2
                                      injection h2 with h2
                                      subst h1
                                      subst h2
                                      refine ⟨.inr ⟨rid0, rfl, .inl ?_⟩,
                                        fun rid hr hupd => ?_⟩
                                      · rw [hat3, hat2, hat1]
                                        rfl
                                      · injection hr with hre
                                        subst hre
                                        have hbad := @updateColumns_fails_of_not_ok
                                          env rid0 "grant_verified" (Json.dumps vr)
                                          st₁ hupd
                                        rw [hgv] at hbad
                                        exact Except.noConfusion hbad
                                  | ok fp =>
                                      dsimp only at h
                                      cases hgf : updateColumns env rid0
                                          [("grant_final", fp)] st₃ with
                                      | mk st₄ res₄ =>
                                          rw [hgf] at h
                                          cases res₄ with
                                          | error e4 =>
                                              dsimp only at h
                                              injection h with h1 h2
                                              injection h2 with h2
                                              subst h1
                                              subst h2
                                              have hat4 :=
                                                updateColumns_err_attempts hgf
                                              refine ⟨.inr ⟨rid0, rfl, .inr ?_⟩,
                                                fun rid hr hupd => ?_⟩
                                              · rw [hat4, hat3, hat2, hat1,
                                                  List.append_assoc]
                                                rfl
                                              · injection hr with hre
                                                subst hre
                                                have hbad :=
                                                  @updateColumns_fails_of_not_ok
                                                  env rid0 "grant_verified"
                                                  (Json.dumps vr) st₁ hupd
                                                rw [hgv] at hbad
                                                exact Except.noConfusion hbad
                                          | ok u4 =>
                                              dsimp only at h
                                              injection h with h1 h2
                                              injection h2 with h2
                                              subst h1
                                              subst h2
                                              have hat4 :=
                                                updateColumns_ok_attempts hgf
                                              refine ⟨.inr ⟨rid0, rfl, .inr ?_⟩,
                                                fun rid hr hupd => ?_⟩
                                              · rw [hat4, hat3, hat2, hat1,
                                                  List.append_assoc]
                                                rfl
                                              · injection hr with hre
                                                subst hre
                                                have hbad :=
                                                  @updateColumns_fails_of_not_ok
                                                  env rid0 "grant_verified"
                                                  (Json.dumps vr) st₁ hupd
                                                rw [hgv] at hbad
                                                exact Except.noConfusion hbad

def c2wEnv : VerifEnv := ⟨fun _ => .ok "failed to verify", fun _ _ => true⟩

def c2wRow : VRow := ⟨some "w2", [("grant_scrap", .obj [])]⟩

def c2wSt' : VState :=
  ⟨[⟨some "w2", [("grant_scrap", .obj []),
      ("grant_verified", .str (Json.dumps (.obj []))),
      ("grant_final", .str "failed to verify")]⟩], 1,
    [("w2", "grant_verified"), ("w2", "grant_final")]⟩

def c2wD : VDelta := ⟨1, 1, 1, 0, 0, ["w2"], 0⟩

/-- Witness for C2 on a row that processes fully: both updates are
attempted in order. -/
theorem verify_two_separate_updates_witness :
    (c2wSt'.attempts = [] ∨
     (∃ rid, c2wRow.rid = some rid ∧
       (c2wSt'.attempts = [] ++ [(rid, "grant_verified")] ∨
        c2wSt'.attempts = [] ++
          [(rid, "grant_verified"), (rid, "grant_final")]))) ∧
    (∀ rid, c2wRow.rid = some rid →
      c2wEnv.updateOk rid "grant_verified" = false →
      (c2wSt'.attempts = [] ∨
        (c2wSt'.attempts = [] ++ [(rid, "grant_verified")] ∧
          c2wD.failed = 1))) :=
  @verify_two_separate_updates c2wEnv ⟨[c2wRow], 0, []⟩ c2wRow c2wSt' c2wD rfl

def c2Env : VerifEnv :=
  ⟨fun _ => .ok "failed to verify", fun _ c => !(c == "grant_verified")⟩

def c2Row : VRow := ⟨some "r1", [("grant_scrap", .obj [])]⟩

/-- C2 counterexample: a store that refuses `grant_verified` updates.
The processed row records exactly one update attempt — `grant_final` is
never attempted — and the run reports the row failed. -/
theorem verify_update_failure_counterexample :
    (runVerification c2Env [c2Row] none).2 =
      .ok ⟨false, 0, 0, 0, 0, 1, ["r1"], 1⟩ ∧
    (runVerification c2Env [c2Row] none).1.attempts =
      [("r1", "grant_verified")] :=
  ⟨rfl, rfl⟩

def c1Prose : String :=
  "Sure! Here is the corrected grant JSON: \x7b\"grantName\": \"X\"\x7d hope this helps"

def c1Env : VerifEnv := ⟨fun _ => .ok c1Prose, fun _ _ => true⟩

/-- C1: the recovery path of `_parse_model_output` cannot run — its
brace-extraction regex `(\x7b(?:[^\x7b\x7d]|(?1))*\x7d)` uses the
recursive-subpattern extension `(?1)`, which CPython's `re` module
rejects at compile time (`re.error: unknown extension ?1`).  So for a
model response with JSON embedded in prose, `_parse_model_output` raises
instead of falling back to the sentinel, and the exception escapes
`_produce_final_payload`; the sentinel and direct-JSON paths before the
regex still behave as specified. -/
theorem parse_model_output_raises_on_prose :
    parseModelOutput c1Prose = .error .reUnknownExtension ∧
    (produceFinalPayload c1Env (.obj []) (.obj []) ⟨[], 0, []⟩).2 =
      .error .reUnknownExtension ∧
    parseModelOutput "  FAILED TO VERIFY  " = .ok (.str "failed to verify") ∧
    parseModelOutput " \x7b\"a\": 1\x7d " = .ok (.obj [("a", .num 1)]) :=
  ⟨rfl, rfl, rfl, rfl⟩
